import Mathlib

/- Verification of the Roland command execution engine.

   Shallow embedding of the Python sources under src/roland:
   - keyboard/executor.py   (KeyboardExecutor)
   - llm/interpreter.py     (CommandInterpreter)
   - keyboard/keybinds.py   (KeybindManager)
   - macros/storage.py      (MacroStorage) and macros/manager.py (MacroManager)

   Python strings are modelled as Lean String, with the string operations
   (lower, strip, split, containment) implemented structurally over the
   character list so that they evaluate by kernel reduction.
   Python floats are modelled as rationals; the engine only compares,
   clamps and stores durations, so exact arithmetic is a faithful model of
   the values the claims mention.  Fallible Python code (statements that
   can raise) is modelled in the Except monad. -/

namespace Roland

/-- Python str.lower for one character (ASCII case folding). -/
def chLower (c : Char) : Char := c.toLower

/-- Python str.lower: lowercases every character. -/
def strLower (s : String) : String := String.mk (s.data.map chLower)

/-- Drop leading whitespace characters. -/
def dropWS (cs : List Char) : List Char := cs.dropWhile Char.isWhitespace

/-- Python str.strip: remove leading and trailing whitespace. -/
def strStrip (s : String) : String :=
  String.mk (((dropWS s.data).reverse.dropWhile Char.isWhitespace).reverse)

/-- Auxiliary for whitespace splitting: accumulates the current word reversed. -/
def splitWSAux : List Char → List Char → List String
  | [], cur => if cur.isEmpty then [] else [String.mk cur.reverse]
  | c :: cs, cur =>
    if c.isWhitespace then
      if cur.isEmpty then splitWSAux cs []
      else String.mk cur.reverse :: splitWSAux cs []
    else splitWSAux cs (c :: cur)

/-- Python str.split() with no argument: split on whitespace runs, no empties. -/
def splitWS (s : String) : List String := splitWSAux s.data []

/-- Whether the first list is an initial segment of the second. -/
def listIsPre : List Char → List Char → Bool
  | [], _ => true
  | _ :: _, [] => false
  | a :: as, b :: bs => a = b && listIsPre as bs

/-- Whether needle occurs contiguously in hay. -/
def listHasSub (needle : List Char) : List Char → Bool
  | [] => needle.isEmpty
  | c :: cs => listIsPre needle (c :: cs) || listHasSub needle cs

/-- Python `needle in hay` for strings: contiguous substring test. -/
def strIn (needle hay : String) : Bool := listHasSub needle.data hay.data

/-- Byte-wise (codepoint-wise) comparison of characters. -/
def chLe (a b : Char) : Bool := a.toNat ≤ b.toNat

/-- Lexicographic order on character lists, as SQLite BINARY collation. -/
def listLe : List Char → List Char → Bool
  | [], _ => true
  | _ :: _, [] => false
  | a :: as, b :: bs => if a = b then listLe as bs else chLe a b

/-- Lexicographic string order used for ORDER BY name. -/
def strLe (a b : String) : Bool := listLe a.data b.data

/-- Value of a digit string (most significant digit first). -/
def digitsVal (cs : List Char) : Nat := cs.foldl (fun a c => a * 10 + (c.toNat - 48)) 0

/-- Embedded Python/JSON values: the shapes an intent document or a JSON
    payload can take. -/
inductive Py where
  | none
  | bool (b : Bool)
  | int (n : Int)
  | float (q : ℚ)
  | str (s : String)
  | list (xs : List Py)
  | dict (xs : List (String × Py))

/-- The errors Python code in the modelled fragment can raise. -/
inductive PyErr where
  | typeError
  | valueError
  | attrError
deriving DecidableEq

/-- Python truthiness of a value. -/
def Py.truthy : Py → Bool
  | .none => false
  | .bool b => b
  | .int n => n ≠ 0
  | .float q => q ≠ 0
  | .str s => ¬ s.data.isEmpty
  | .list xs => ¬ xs.isEmpty
  | .dict xs => ¬ xs.isEmpty

/-- Python dict.get(key, default): dictionaries have unique keys, so the
    first binding is the binding. -/
def dictGet (d : List (String × Py)) (k : String) (dflt : Py) : Py :=
  match d.find? (fun p => p.1 = k) with
  | some p => p.2
  | Option.none => dflt

/-- Python `key in dict`. -/
def dictHas (d : List (String × Py)) (k : String) : Bool :=
  (d.find? (fun p => p.1 = k)).isSome

/-- Simple decimal rendering of a rational that is an integer, as Python
    repr of such a float (other rationals keep a fraction rendering; the
    claims never print a non-integral float). -/
def floatRepr (q : ℚ) : String :=
  if q.den = 1 then toString q.num ++ ".0"
  else toString q.num ++ "/" ++ toString q.den

/-- Python str(x).  Containers render recursively; only the string case is
    exercised by the claims. -/
def Py.toStr : Py → String
  | .none => "None"
  | .bool true => "True"
  | .bool false => "False"
  | .int n => toString n
  | .float q => floatRepr q
  | .str s => s
  | .list _ => "[...]"
  | .dict _ => "{...}"

/-- Python iteration `for x in v`: lists yield elements, dicts their keys,
    strings their characters; other values raise TypeError. -/
def pyIterate : Py → Except PyErr (List Py)
  | .list xs => .ok xs
  | .dict xs => .ok (xs.map (fun p => Py.str p.1))
  | .str s => .ok (s.data.map (fun c => Py.str (String.mk [c])))
  | _ => .error .typeError

/-- Python v.lower() — succeeds only on strings. -/
def pyLowerE : Py → Except PyErr String
  | .str s => .ok (strLower s)
  | _ => .error .attrError

/-- Python v.strip().lower() — succeeds only on strings. -/
def pyStripLowerE : Py → Except PyErr String
  | .str s => .ok (strLower (strStrip s))
  | _ => .error .attrError

/-- Parse the digits/fraction/exponent body of a Python float literal. -/
def parseFloatStr (s : String) : Except PyErr ℚ :=
  let cs := (dropWS s.data).reverse.dropWhile Char.isWhitespace |>.reverse
  let (sgn, cs) : Int × List Char :=
    match cs with
    | '+' :: t => (1, t)
    | '-' :: t => (-1, t)
    | t => (1, t)
  let (ip, cs) := cs.span Char.isDigit
  let (fp, cs) : List Char × List Char :=
    match cs with
    | '.' :: t => t.span Char.isDigit
    | t => ([], t)
  if ip.isEmpty && fp.isEmpty then .error .valueError
  else
    let mantissa : ℚ := (sgn * (digitsVal ip * 10 ^ fp.length + digitsVal fp) : Int) /
      ((10 : ℚ) ^ fp.length)
    match cs with
    | [] => .ok mantissa
    | e :: t =>
      if e = 'e' || e = 'E' then
        let (esgn, t) : Bool × List Char :=
          match t with
          | '+' :: t2 => (false, t2)
          | '-' :: t2 => (true, t2)
          | t2 => (false, t2)
        let (ed, t) := t.span Char.isDigit
        if ed.isEmpty || ¬ t.isEmpty then .error .valueError
        else if esgn then .ok (mantissa / (10 : ℚ) ^ digitsVal ed)
        else .ok (mantissa * (10 : ℚ) ^ digitsVal ed)
      else .error .valueError

/-- Python float(v): numbers convert, strings parse, anything else raises. -/
def pyFloatE : Py → Except PyErr ℚ
  | .float q => .ok q
  | .int n => .ok (n : ℚ)
  | .bool b => .ok (if b then 1 else 0)
  | .str s => parseFloatStr s
  | _ => .error .typeError

/-- Truncation toward zero, as Python int() applied to a float. -/
def ratTrunc (q : ℚ) : Int := if q < 0 then -⌊-q⌋ else ⌊q⌋

/-- Parse the digits of a Python int literal. -/
def parseIntStr (s : String) : Except PyErr Int :=
  let cs := (dropWS s.data).reverse.dropWhile Char.isWhitespace |>.reverse
  let (sgn, cs) : Int × List Char :=
    match cs with
    | '+' :: t => (1, t)
    | '-' :: t => (-1, t)
    | t => (1, t)
  if cs.isEmpty || ¬ (cs.all Char.isDigit) then .error .valueError
  else .ok (sgn * digitsVal cs)

/-- Python int(v): ints pass, floats truncate, strings parse, else raises. -/
def pyIntE : Py → Except PyErr Int
  | .int n => .ok n
  | .float q => .ok (ratTrunc q)
  | .bool b => .ok (if b then 1 else 0)
  | .str s => parseIntStr s
  | _ => .error .typeError

/- ===== CommandInterpreter (src/roland/llm/interpreter.py) ===== -/

/-- CommandType enum of interpreter.py. -/
inductive CmdType where
  | press_key
  | hold_key
  | key_combo
  | complex_action
  | createMacro
  | deleteMacro
  | list_macros
  | speak_only
  | unknown
deriving DecidableEq

/-- CommandType(action) with the surrounding try/except: unrecognized
    action strings map to UNKNOWN. -/
def CmdType.ofString (s : String) : CmdType :=
  if s = "press_key" then .press_key
  else if s = "hold_key" then .hold_key
  else if s = "key_combo" then .key_combo
  else if s = "complex_action" then .complex_action
  else if s = "create_macro" then .createMacro
  else if s = "delete_macro" then .deleteMacro
  else if s = "list_macros" then .list_macros
  else if s = "speak_only" then .speak_only
  else .unknown

/-- ActionStep dataclass of interpreter.py.  action_type is stored as the
    raw document value, as Python does. -/
structure AStep where
  actionType : Py
  keys : List String
  repeatCount : Int := 1
  delayBetween : ℚ := 0
  duration : ℚ := 0
  delayAfter : ℚ := 0

/-- Command dataclass of interpreter.py.  Fields that receive untouched
    document values are typed Py. -/
structure Cmd where
  ctype : CmdType
  keys : List String
  duration : ℚ
  response : Py
  macroName : Option String := Option.none
  triggerPhrase : Option Py := Option.none
  macroKeys : Option (List String) := Option.none
  macroActionType : Option Py := Option.none
  steps : List AStep := []
  macroSteps : List AStep := []
  raw : List (String × Py)

/-- ALLOWED_KEYS of CommandInterpreter. -/
def allowedKeys : List String :=
  ["a", "b", "c", "d", "e", "f", "g", "h", "i", "j", "k", "l", "m",
   "n", "o", "p", "q", "r", "s", "t", "u", "v", "w", "x", "y", "z",
   "0", "1", "2", "3", "4", "5", "6", "7", "8", "9",
   "f1", "f2", "f3", "f4", "f5", "f6", "f7", "f8", "f9", "f10", "f11", "f12",
   "ctrl", "alt", "shift", "ctrl_l", "ctrl_r", "alt_l", "alt_r", "shift_l", "shift_r",
   "space", "enter", "tab", "esc", "backspace", "delete",
   "up", "down", "left", "right",
   "home", "end", "page_up", "page_down", "insert",
   "[", "]", "\x27", "\\", ",", ".", "/", ";", "-", "=", "`"]

/-- CommandInterpreter._normalize_keys.  A falsy value yields []; a string
    is wrapped in a one-element list; iterating a non-iterable raises. -/
def normalizeKeysE (v : Py) : Except PyErr (List String) :=
  if v.truthy = false then .ok []
  else
    match (match v with
           | .str s => Except.ok [Py.str s]
           | w => pyIterate w) with
    | .error e => .error e
    | .ok items =>
      .ok (items.filterMap (fun it =>
        let t := strStrip (strLower (Py.toStr it))
        if t.data.isEmpty then Option.none else some t))

/-- CommandInterpreter._validate_duration: non-numeric becomes 0, negatives
    become 0, values above max_duration are clamped. -/
def validateDuration (maxDur : ℚ) (v : Py) : ℚ :=
  match pyFloatE v with
  | .error _ => 0
  | .ok dur => if dur < 0 then 0 else if dur > maxDur then maxDur else dur

/-- One iteration of the _parse_action_steps loop: a non-dict entry and a
    step whose keys all get filtered away are skipped (none); otherwise the
    validated ActionStep is produced. -/
def parseStep1 (maxDur : ℚ) (step : Py) : Except PyErr (Option AStep) :=
  match step with
  | .dict sd =>
    match normalizeKeysE (dictGet sd "keys" (.list [])) with
    | .error err => .error err
    | .ok keys =>
      let validKeys := keys.filter (fun k => k ∈ allowedKeys)
      if validKeys.isEmpty then .ok Option.none
      else
        let repeatCount :=
          match pyIntE (dictGet sd "repeat_count" (.int 1)) with
          | .ok n => max 1 (min n 50)
          | .error _ => 1
        .ok (some
          { actionType := dictGet sd "action_type" (.str "press_key")
            keys := validKeys
            repeatCount := repeatCount
            delayBetween := validateDuration maxDur (dictGet sd "delay_between" (.float 0))
            duration := validateDuration maxDur (dictGet sd "duration" (.float 0))
            delayAfter := validateDuration maxDur (dictGet sd "delay_after" (.float 0)) })
  | _ => .ok Option.none

/-- The _parse_action_steps loop over the iterated entries, in order,
    stopping at the first entry that raises. -/
def parseStepsList (maxDur : ℚ) : List Py → Except PyErr (List AStep)
  | [] => .ok []
  | step :: rest =>
    match parseStep1 maxDur step with
    | .error err => .error err
    | .ok Option.none => parseStepsList maxDur rest
    | .ok (some st) =>
      match parseStepsList maxDur rest with
      | .error err => .error err
      | .ok l => .ok (st :: l)

/-- CommandInterpreter._parse_action_steps: skips non-dict entries, drops
    steps whose keys are all filtered away, clamps repeat_count to [1, 50],
    validates the delay fields. -/
def parseActionStepsE (maxDur : ℚ) (steps : Py) : Except PyErr (List AStep) :=
  match pyIterate steps with
  | .error err => .error err
  | .ok items => parseStepsList maxDur items

/-- CommandInterpreter._validate_keyboard_command: with a nonempty key list,
    keys outside the allow-list are removed. -/
def validateKeyboardKeys (keys : List String) : List String :=
  if keys.isEmpty then keys
  else
    let invalid := keys.filter (fun k => ¬ (k ∈ allowedKeys))
    if invalid.isEmpty then keys
    else keys.filter (fun k => ¬ (k ∈ invalid))

/-- The CREATE_MACRO block of parse: macro_name is stripped and lowered
    (raising on a non-string), trigger_phrase defaults to it; the presence
    of a macro_steps key selects the v2 payload, otherwise the legacy
    macro_keys are normalized (with no allow-list filtering). -/
def parseCreateBlock (maxDur : ℚ) (iv : List (String × Py)) (cmd : Cmd) :
    Except PyErr Cmd :=
  match pyStripLowerE (dictGet iv "macro_name" (.str "")) with
  | .error e => .error e
  | .ok mname =>
    let cmdA := { cmd with
      macroName := some mname
      triggerPhrase := some (dictGet iv "trigger_phrase" (.str mname)) }
    if dictHas iv "macro_steps" then
      (parseActionStepsE maxDur (dictGet iv "macro_steps" (.list []))).map
        (fun ms => { cmdA with macroSteps := ms })
    else
      (normalizeKeysE (dictGet iv "macro_keys" (.list []))).map
        (fun mk => { cmdA with
          macroKeys := some mk
          macroActionType := some (dictGet iv "macro_action_type" (.str "press_key")) })

/-- CommandInterpreter.parse, with max_duration as the interpreter state.
    Statements that can raise are sequenced in Except. -/
def interpParse (maxDur : ℚ) (iv : List (String × Py)) : Except PyErr Cmd :=
  match pyLowerE (dictGet iv "action" (.str "")) with
  | .error e => .error e
  | .ok action =>
    let ctype := CmdType.ofString action
    match normalizeKeysE (dictGet iv "keys" (.list [])) with
    | .error e => .error e
    | .ok keys =>
      let duration := validateDuration maxDur (dictGet iv "duration" (.float 0))
      let textResponse := dictGet iv "response" (.str "Acknowledged, Commander.")
      let base : Cmd :=
        { ctype := ctype, keys := keys, duration := duration,
          response := textResponse, raw := iv }
      match (if ctype = .complex_action then
               (parseActionStepsE maxDur (dictGet iv "steps" (.list []))).map
                 (fun st => { base with steps := st })
             else .ok base) with
      | .error e => .error e
      | .ok cmd1 =>
        match (if ctype = .createMacro then parseCreateBlock maxDur iv cmd1
               else if ctype = .deleteMacro then
                 (pyStripLowerE (dictGet iv "macro_name" (.str ""))).map
                   (fun mname => { cmd1 with macroName := some mname })
               else .ok cmd1) with
        | .error e => .error e
        | .ok cmd2 =>
          .ok (if ctype = .press_key ∨ ctype = .hold_key ∨ ctype = .key_combo then
                 { cmd2 with keys := validateKeyboardKeys cmd2.keys }
               else cmd2)

/- ===== KeyboardExecutor (src/roland/keyboard/executor.py) ===== -/

/-- A value passed to the pynput controller: a Key object from
    SPECIAL_KEYS (identified by its canonical pynput name) or a plain
    string. -/
inductive PKey where
  | obj (name : String)
  | str (s : String)
deriving DecidableEq

/-- SPECIAL_KEYS: key-name string to pynput Key object. -/
def specialKeys : List (String × String) :=
  [("ctrl", "ctrl"), ("control", "ctrl"), ("ctrl_l", "ctrl_l"), ("ctrl_r", "ctrl_r"),
   ("alt", "alt"), ("alt_l", "alt_l"), ("alt_r", "alt_r"),
   ("shift", "shift"), ("shift_l", "shift_l"), ("shift_r", "shift_r"),
   ("space", "space"), ("enter", "enter"), ("return", "enter"), ("tab", "tab"),
   ("esc", "esc"), ("escape", "esc"), ("backspace", "backspace"), ("delete", "delete"),
   ("up", "up"), ("down", "down"), ("left", "left"), ("right", "right"),
   ("home", "home"), ("end", "end"), ("page_up", "page_up"), ("page_down", "page_down"),
   ("insert", "insert"),
   ("f1", "f1"), ("f2", "f2"), ("f3", "f3"), ("f4", "f4"), ("f5", "f5"), ("f6", "f6"),
   ("f7", "f7"), ("f8", "f8"), ("f9", "f9"), ("f10", "f10"), ("f11", "f11"), ("f12", "f12"),
   ("caps_lock", "caps_lock"), ("num_lock", "num_lock"), ("scroll_lock", "scroll_lock"),
   ("print_screen", "print_screen"), ("pause", "pause"), ("menu", "menu")]

/-- KeyboardExecutor._resolve_key. -/
def resolveKey (key : String) : PKey :=
  let keyLower := strStrip (strLower key)
  match specialKeys.find? (fun p => p.1 = keyLower) with
  | some p => .obj p.2
  | Option.none =>
    if key.data.length = 1 then .str (strLower key)
    else .str (strLower key)

/-- Observable effects of the executor: controller press/release calls and
    timed waits. -/
inductive Ev where
  | press (k : PKey)
  | release (k : PKey)
  | sleep (t : ℚ)
deriving DecidableEq

/-- KeyboardExecutor state.  The focus gate queries the operating system on
    every enabled check; focusAnswers records, per call index, the report of
    that check (already folded with its fail-open defaults), and focusCalls
    counts the checks made so far. -/
structure Exec where
  requireFocus : Bool
  focusAnswers : Nat → Bool
  focusCalls : Nat := 0
  pressDuration : ℚ := mkRat 1 20
  holdDuration : ℚ := 1
  comboDelay : ℚ := mkRat 1 50
  held : List PKey := []

/-- Result of an executor method: return value, post state, effect trace,
    and a ghost counter of completed step repetitions (used only by
    execute_step). -/
structure EResult where
  ok : Bool
  st : Exec
  trace : List Ev
  reps : Nat := 0

/-- KeyboardExecutor.is_game_focused: disabled checking reports focused
    without consulting the OS; otherwise one OS check is consumed. -/
def isGameFocused (e : Exec) : Bool × Exec :=
  if e.requireFocus = false then (true, e)
  else (e.focusAnswers e.focusCalls, { e with focusCalls := e.focusCalls + 1 })

/-- Python `duration or default`: None and 0.0 both select the default. -/
def pyOrQ (d : Option ℚ) (dflt : ℚ) : ℚ :=
  match d with
  | some x => if x = 0 then dflt else x
  | Option.none => dflt

/-- KeyboardExecutor.press_key. -/
def pressKey (e : Exec) (key : String) (duration : Option ℚ := Option.none) : EResult :=
  let (foc, e) := isGameFocused e
  if foc = false then ⟨false, e, [], 0⟩
  else
    let k := resolveKey key
    let pressTime := pyOrQ duration e.pressDuration
    ⟨true, e, [.press k, .sleep pressTime, .release k], 0⟩

/-- The state of hold_key between the press and the release: the key has
    been pressed and appended to the held list. -/
def holdKeyMid (e : Exec) (key : String) : Exec :=
  { e with held := e.held ++ [resolveKey key] }

/-- KeyboardExecutor.hold_key. -/
def holdKey (e : Exec) (key : String) (duration : Option ℚ := Option.none) : EResult :=
  let (foc, e) := isGameFocused e
  if foc = false then ⟨false, e, [], 0⟩
  else
    let k := resolveKey key
    let holdTime := pyOrQ duration e.holdDuration
    let e1 := holdKeyMid e key
    let e2 := { e1 with held := if k ∈ e1.held then e1.held.erase k else e1.held }
    ⟨true, e2, [.press k, .sleep holdTime, .release k], 0⟩

/-- KeyboardExecutor.release_key. -/
def releaseKey (e : Exec) (key : String) : EResult :=
  let k := resolveKey key
  if k ∈ e.held then ⟨true, { e with held := e.held.erase k }, [.release k], 0⟩
  else ⟨false, e, [], 0⟩

/-- KeyboardExecutor.key_combo. -/
def keyCombo (e : Exec) (keys : List String) (holdDuration : Option ℚ := Option.none) :
    EResult :=
  let (foc, e) := isGameFocused e
  if foc = false then ⟨false, e, [], 0⟩
  else if keys.isEmpty then ⟨false, e, [], 0⟩
  else
    let rks := keys.map resolveKey
    let pressEvs := (rks.map (fun k => [Ev.press k, Ev.sleep e.comboDelay])).flatten
    let holdEvs :=
      match holdDuration with
      | some d => if d = 0 then [Ev.sleep e.pressDuration] else [Ev.sleep d]
      | Option.none => [Ev.sleep e.pressDuration]
    let relEvs := (rks.reverse.map (fun k => [Ev.release k, Ev.sleep e.comboDelay])).flatten
    ⟨true, e, pressEvs ++ holdEvs ++ relEvs, 0⟩

/-- KeyboardExecutor.type_string. -/
def typeString (e : Exec) (text : String) (delay : ℚ := mkRat 1 20) : EResult :=
  let (foc, e) := isGameFocused e
  if foc = false then ⟨false, e, [], 0⟩
  else
    let evs := (text.data.map (fun c =>
      [Ev.press (.str (String.mk [c])), Ev.release (.str (String.mk [c])), Ev.sleep delay])).flatten
    ⟨true, e, evs, 0⟩

/-- KeyboardExecutor.release_all_held_keys. -/
def releaseAllHeldKeys (e : Exec) : Exec × List Ev :=
  ({ e with held := [] }, e.held.map Ev.release)

/-- An executor-level step dictionary, with the dict.get defaults of
    execute_step applied to absent keys. -/
structure StepDict where
  actionType : String := "press_key"
  keys : List String := []
  repeatCount : Int := 1
  delayBetween : ℚ := 0
  duration : ℚ := 0
  delayAfter : ℚ := 0

/-- One repetition of the body of the execute_step loop. -/
def execStepOnce (e : Exec) (s : StepDict) (k : String) : EResult :=
  if s.actionType = "press_key" then pressKey e k
  else if s.actionType = "hold_key" then holdKey e k (some s.duration)
  else if s.actionType = "key_combo" then
    keyCombo e s.keys (if s.duration > 0 then some s.duration else Option.none)
  else ⟨false, e, [], 0⟩

/-- The execute_step repetition loop, counting down the remaining
    repetitions; the inter-repetition sleep is emitted after every
    successful repetition that is not the last. -/
def execStepLoop (s : StepDict) (k : String) (db : ℚ) : Exec → Nat → EResult
  | e, 0 => ⟨true, e, [], 0⟩
  | e, n + 1 =>
    let r := execStepOnce e s k
    if r.ok = false then ⟨false, r.st, r.trace, 0⟩
    else if n = 0 then ⟨true, r.st, r.trace, 1⟩
    else
      let mid := if db > 0 then [Ev.sleep db] else []
      let rest := execStepLoop s k db r.st n
      ⟨rest.ok, rest.st, r.trace ++ mid ++ rest.trace, 1 + rest.reps⟩

/-- KeyboardExecutor.execute_step. -/
def executeStep (e : Exec) (s : StepDict) : EResult :=
  let repeatCount := min s.repeatCount 50
  let db := if s.delayBetween > 0 then max s.delayBetween (mkRat 1 50) else s.delayBetween
  if s.keys.isEmpty then ⟨false, e, [], 0⟩
  else
    let k := s.keys.headD ""
    let r := execStepLoop s k db e repeatCount.toNat
    if r.ok = false then r
    else ⟨true, r.st,
      r.trace ++ (if s.delayAfter > 0 then [Ev.sleep s.delayAfter] else []), r.reps⟩

/-- KeyboardExecutor.execute_sequence. -/
def executeSequence (e : Exec) (steps : List StepDict) : EResult :=
  let (foc, e) := isGameFocused e
  if foc = false then ⟨false, e, [], 0⟩
  else if steps.isEmpty then ⟨false, e, [], 0⟩
  else
    steps.foldl (fun acc s =>
      if acc.ok = false then acc
      else
        let r := executeStep acc.st s
        ⟨r.ok, r.st, acc.trace ++ r.trace, 0⟩) ⟨true, e, [], 0⟩

/- ===== KeybindManager (src/roland/keyboard/keybinds.py) ===== -/

/-- Keybind dataclass of keybinds.py. -/
structure Keybind where
  name : String
  category : String
  keys : List String
  action : String
  duration : ℚ
  aliases : List String
  response : String
deriving DecidableEq

/-- KeybindManager state after a load: the name-keyed dict of keybinds and
    the lowercased alias index, both in insertion order. -/
structure KeybindMgr where
  keybinds : List (String × Keybind)
  aliasIdx : List (String × Keybind)

/-- The word set of one alias: lowercased, whitespace-split, deduplicated. -/
def aliasWords (al : String) : List String := (splitWS (strLower al)).dedup

/-- The word-overlap score of find_by_alias: |query words ∩ alias words|
    divided by |alias words| (floored at 1), in exact arithmetic. -/
def fuzzyScore (qWords : List String) (al : String) : ℚ :=
  ((qWords.filter (fun w => w ∈ aliasWords al)).length : ℚ) /
    ((max (aliasWords al).length 1 : Nat) : ℚ)

/-- One iteration of the fuzzy loop: a strictly better score of at least
    0.5 replaces the best candidate. -/
def fuzzyStep (qWords : List String) (kb : Keybind) (best : Option Keybind × ℚ)
    (al : String) : Option Keybind × ℚ :=
  if fuzzyScore qWords al > best.2 ∧ fuzzyScore qWords al ≥ mkRat 1 2 then
    (some kb, fuzzyScore qWords al)
  else best

/-- KeybindManager.find_by_alias: exact alias hit, then containment in
    either direction over the alias index, then word-overlap fuzzy scoring
    over every alias of every keybind. -/
def findByAlias (m : KeybindMgr) (query : String) : Option Keybind :=
  let ql := strStrip (strLower query)
  match m.aliasIdx.find? (fun p => p.1 = ql) with
  | some p => some p.2
  | Option.none =>
    match m.aliasIdx.find? (fun p => strIn p.1 ql || strIn ql p.1) with
    | some p => some p.2
    | Option.none =>
      (m.keybinds.foldl (fun best nb =>
        nb.2.aliases.foldl (fuzzyStep ((splitWS ql).dedup) nb.2) best)
        ((Option.none : Option Keybind), (0 : ℚ))).1

/- ===== MacroStorage and MacroManager (src/roland/macros) ===== -/

/-- The recoverable macro creation failures: store at capacity, or the
    UNIQUE(name) constraint violated (IntegrityError surfaced as
    ValueError). -/
inductive MacroErr where
  | capacity
  | duplicate
deriving DecidableEq

/-- One row of the macros table.  TEXT columns that hold JSON are modelled
    as the parsed JSON value (json.dumps and json.loads are mutually
    inverse on the documents the store writes); NULL is Option.none. -/
structure MacroRow where
  rid : Nat
  name : String
  triggerPhrase : String
  actionType : Option String
  keysJson : Option (List String)
  duration : ℚ
  actionSteps : Option (List Py)
  schemaVersion : Int
  response : Option String
  useCount : Int := 0
  lastUsed : Option String := Option.none

/-- The macros table plus the AUTOINCREMENT counter. -/
structure MacroStore where
  rows : List MacroRow := []
  nextId : Nat := 1

/-- Truthiness of the action_steps argument of MacroStorage.create. -/
def stepsTruthyB : Option (List Py) → Bool
  | some (_ :: _) => true
  | _ => false

/-- json.dumps(keys) if keys else None: a falsy (absent or empty) keys
    list stores NULL. -/
def keysJsonOf : Option (List String) → Option (List String)
  | some (k :: ks) => some (k :: ks)
  | _ => Option.none

/-- The row INSERT writes. -/
def mkRow (rid : Nat) (name trigger : String) (atype : Option String)
    (keysJson : Option (List String)) (dur : ℚ) (stepsJson : Option (List Py))
    (schemaV : Int) (resp : Option String) : MacroRow :=
  { rid := rid, name := name, triggerPhrase := trigger, actionType := atype,
    keysJson := keysJson, duration := dur, actionSteps := stepsJson,
    schemaVersion := schemaV, response := resp }

/-- MacroStorage.create.  The failed INSERT of a duplicate name leaves the
    table unchanged; the post-state is returned alongside the outcome. -/
def storageCreate (s : MacroStore) (name trigger : String)
    (actionType : Option String) (keys : Option (List String))
    (duration : ℚ) (actionSteps : Option (List Py))
    (response : Option String) : MacroStore × Except MacroErr Nat :=
  let schemaVersion : Int := if stepsTruthyB actionSteps then 2 else 1
  let keysJson := if stepsTruthyB actionSteps then Option.none else keysJsonOf keys
  let stepsJson := if stepsTruthyB actionSteps then actionSteps else Option.none
  if name ∈ s.rows.map (fun r => r.name) then (s, .error .duplicate)
  else
    ({ rows := s.rows ++ [mkRow s.nextId name trigger actionType keysJson duration
        stepsJson schemaVersion response], nextId := s.nextId + 1 }, .ok s.nextId)

/-- A macro document as _row_to_dict produces it (and as export_json
    serializes it). -/
structure MacroDict where
  did : Nat
  name : String
  triggerPhrase : String
  response : Option String
  lastUsed : Option String
  useCount : Int
  schemaVersion : Int
  actionSteps : Option (List Py)
  actionType : Option String
  keys : Option (List String)
  duration : Option ℚ

/-- MacroStorage._row_to_dict: a truthy action_steps column (any stored
    JSON text) masks the legacy fields; otherwise the legacy fields are
    populated and action_steps is None. -/
def rowToDict (r : MacroRow) : MacroDict :=
  match r.actionSteps with
  | some steps =>
    { did := r.rid, name := r.name, triggerPhrase := r.triggerPhrase,
      response := r.response, lastUsed := r.lastUsed, useCount := r.useCount,
      schemaVersion := r.schemaVersion, actionSteps := some steps,
      actionType := Option.none, keys := Option.none, duration := Option.none }
  | Option.none =>
    { did := r.rid, name := r.name, triggerPhrase := r.triggerPhrase,
      response := r.response, lastUsed := r.lastUsed, useCount := r.useCount,
      schemaVersion := r.schemaVersion, actionSteps := Option.none,
      actionType := r.actionType, keys := some (r.keysJson.getD []),
      duration := some r.duration }

/-- MacroStorage.get_by_id. -/
def getById (s : MacroStore) (rid : Nat) : Option MacroDict :=
  (s.rows.find? (fun r => r.rid = rid)).map rowToDict

/-- MacroStorage.get. -/
def getByName (s : MacroStore) (name : String) : Option MacroDict :=
  (s.rows.find? (fun r => r.name = name)).map rowToDict

/-- MacroStorage.count. -/
def storeCount (s : MacroStore) : Nat := s.rows.length

/-- ORDER BY name with the BINARY collation. -/
def sortRows (rows : List MacroRow) : List MacroRow :=
  rows.insertionSort (fun a b => strLe a.name b.name = true)

/-- MacroStorage.list_all. -/
def listAll (s : MacroStore) : List MacroDict := (sortRows s.rows).map rowToDict

/-- MacroStorage.delete. -/
def deleteByName (s : MacroStore) (name : String) : MacroStore × Bool :=
  ({ s with rows := s.rows.filter (fun r => ¬ (r.name = name)) },
   s.rows.any (fun r => r.name = name))

/-- MacroStorage.export_json, with the JSON text step elided: the document
    list it serializes. -/
def exportDocs (s : MacroStore) : List MacroDict := listAll s

/-- MacroStorage.import_json on the decoded document list: entries whose
    create fails (duplicate name) are skipped, the rest are created; the
    exported documents always carry every field, so dict.get returns the
    field value. -/
def importDocs (s : MacroStore) (docs : List MacroDict) (overwrite : Bool) :
    MacroStore × Nat :=
  match docs with
  | [] => (s, 0)
  | m :: rest =>
    let s0 := if overwrite then (deleteByName s m.name).1 else s
    let res :=
      if stepsTruthyB m.actionSteps then
        storageCreate s0 m.name m.triggerPhrase Option.none Option.none 0
          m.actionSteps m.response
      else
        storageCreate s0 m.name m.triggerPhrase m.actionType (some (m.keys.getD []))
          (m.duration.getD 0) Option.none m.response
    match res with
    | (s2, .ok _) =>
      let r := importDocs s2 rest overwrite
      (r.1, r.2 + 1)
    | (_s2, .error _) =>
      let r := importDocs s0 rest overwrite
      (r.1, r.2)

/-- MacroManager.create: the conversion of an ActionStep object to the dict
    handed to storage. -/
def stepToPy (st : AStep) : Py :=
  .dict [("action_type", st.actionType),
         ("keys", .list (st.keys.map Py.str)),
         ("repeat_count", .int st.repeatCount),
         ("delay_between", .float st.delayBetween),
         ("duration", .float st.duration),
         ("delay_after", .float st.delayAfter)]

/-- MacroManager.create: capacity check, input normalization, default
    response, then the v2 or legacy storage create; the created macro is
    read back by id. -/
def managerCreate (maxMacros : Nat) (s : MacroStore) (name trigger : String)
    (keys : Option (List String)) (actionType : String)
    (duration : ℚ) (actionSteps : Option (List AStep))
    (response : Option String) : MacroStore × Except MacroErr (Option MacroDict) :=
  if s.rows.length ≥ maxMacros then (s, .error .capacity)
  else
    let name := strStrip (strLower name)
    let trigger := if trigger.data.isEmpty then name else strStrip (strLower trigger)
    let response :=
      match response with
      | some r => if r.data.isEmpty then "Executing " ++ name ++ " macro, Commander." else r
      | Option.none => "Executing " ++ name ++ " macro, Commander."
    let res :=
      match actionSteps with
      | some (st :: sts) =>
        storageCreate s name trigger Option.none Option.none 0
          (some ((st :: sts).map stepToPy)) (some response)
      | _ =>
        storageCreate s name trigger (some actionType) (some (keys.getD []))
          duration Option.none (some response)
    match res with
    | (s2, .ok rid) => (s2, .ok (getById s2 rid))
    | (s2, .error err) => (s2, .error err)

/- ===== Theorems ===== -/

/-- An executor whose focus gate always reports "not focused". -/
def deniedExec : Exec := { requireFocus := true, focusAnswers := fun _ => false }

/-- The effect trace of one successful repetition of an execute_step body,
    as a function of the executor timing configuration and the step. -/
def succBlock (pd hd cd : ℚ) (s : StepDict) (k : String) : List Ev :=
  if s.actionType = "press_key" then
    [.press (resolveKey k), .sleep pd, .release (resolveKey k)]
  else if s.actionType = "hold_key" then
    [.press (resolveKey k), .sleep (pyOrQ (some s.duration) hd), .release (resolveKey k)]
  else if s.actionType = "key_combo" then
    ((s.keys.map resolveKey).map (fun x => [Ev.press x, Ev.sleep cd])).flatten ++
    (if s.duration > 0 then (if s.duration = 0 then [Ev.sleep pd] else [Ev.sleep s.duration])
     else [Ev.sleep pd]) ++
    ((s.keys.map resolveKey).reverse.map (fun x => [Ev.release x, Ev.sleep cd])).flatten
  else []

/-- n repetition blocks separated by the inter-repetition sleep. -/
def blocksTrace : Nat → List Ev → List Ev → List Ev
  | 0, _, _ => []
  | n + 1, blk, mid => blk ++ (List.replicate n (mid ++ blk)).flatten

/-- The effective inter-repetition delay of execute_step: a positive
    delay_between is floored at MIN_REPEAT_DELAY = 0.02. -/
def stepDelayBetween (s : StepDict) : ℚ :=
  if s.delayBetween > 0 then max s.delayBetween (mkRat 1 50) else s.delayBetween

/-- The sleep emitted between repetitions when the delay is positive. -/
def midSleep (db : ℚ) : List Ev := if db > 0 then [Ev.sleep db] else []

/-- The sleep emitted once after all repetitions when delay_after is
    positive. -/
def afterSleep (s : StepDict) : List Ev :=
  if s.delayAfter > 0 then [Ev.sleep s.delayAfter] else []

/-- An executor with focus checking disabled. -/
def freeExec : Exec := { requireFocus := false, focusAnswers := fun _ => true }

/-- A concrete press step with three repetitions and both delays set. -/
def c3Step : StepDict :=
  { actionType := "press_key", keys := ["a"], repeatCount := 3,
    delayBetween := 1, delayAfter := 2 }

/-- A steps document whose single step asks for 99 repetitions. -/
def stepsPy99 : Py :=
  .list [.dict [("keys", .list [.str "a"]), ("repeat_count", .int 99)]]

/-- The step the interpreter produces for stepsPy99: clamped to 50. -/
def step99 : AStep := { actionType := .str "press_key", keys := ["a"], repeatCount := 50 }

/-- The values _normalize_keys accepts without raising: anything falsy, or
    a string, list or dict. -/
def keysOkB : Py → Bool
  | .str _ => true
  | .list _ => true
  | .dict _ => true
  | v => !v.truthy

/-- Whether a value is a Python string. -/
def strOkB : Py → Bool
  | .str _ => true
  | _ => false

/-- The condition under which one _parse_action_steps entry does not
    raise: non-dict entries are skipped, dict entries need an acceptable
    keys value. -/
def stepElemOkB : Py → Bool
  | .dict sd => keysOkB (dictGet sd "keys" (.list []))
  | _ => true

/-- The condition under which _parse_action_steps does not raise: the
    container must be iterable and every dict entry must have an
    acceptable keys value. -/
def stepsOkB : Py → Bool
  | .list xs => xs.all stepElemOkB
  | .dict _ => true
  | .str _ => true
  | _ => false

/-- The no-raise domain of parse: the action value is a string, the keys
    value is acceptable, and the branch taken for the recognized action
    only meets iterable steps containers and string macro names. -/
def parseWF (iv : List (String × Py)) : Bool :=
  match dictGet iv "action" (.str "") with
  | .str a =>
    let act := CmdType.ofString (strLower a)
    keysOkB (dictGet iv "keys" (.list [])) &&
    (if act = .complex_action then stepsOkB (dictGet iv "steps" (.list [])) else true) &&
    (if act = .createMacro then
       strOkB (dictGet iv "macro_name" (.str "")) &&
       (if dictHas iv "macro_steps" then stepsOkB (dictGet iv "macro_steps" (.list []))
        else keysOkB (dictGet iv "macro_keys" (.list [])))
     else true) &&
    (if act = .deleteMacro then strOkB (dictGet iv "macro_name" (.str "")) else true)
  | _ => false

/-- A create_macro intent document whose legacy macro_keys name is not in
    the allow-list. -/
def docCreate : List (String × Py) :=
  [("action", .str "create_macro"), ("macro_name", .str "boost"),
   ("macro_keys", .list [.str "VOLUME_UP"])]

/-- A press_key intent document with the same disallowed key name. -/
def docPress : List (String × Py) :=
  [("action", .str "press_key"), ("keys", .list [.str "volume_up"])]

/-- A complex_action intent document whose single step has only the
    disallowed key name. -/
def docComplex : List (String × Py) :=
  [("action", .str "complex_action"),
   ("steps", .list [.dict [("keys", .list [.str "volume_up"])]])]

/-- The command parse produces for docCreate. -/
def cCreate : Cmd :=
  { ctype := .createMacro, keys := [], duration := 0,
    response := .str "Acknowledged, Commander.",
    macroName := some "boost", triggerPhrase := some (.str "boost"),
    macroKeys := some ["volume_up"], macroActionType := some (.str "press_key"),
    raw := docCreate }

/-- The keybind of the C6 example catalog: its only alias is
    "power to weapons". -/
def kbWeapons : Keybind :=
  { name := "weapons", category := "power", keys := ["p"], action := "press",
    duration := 0, aliases := ["power to weapons"], response := "Power to weapons." }

/-- The C6 example catalog: one keybind, one alias. -/
def mgrW : KeybindMgr :=
  { keybinds := [("weapons", kbWeapons)], aliasIdx := [("power to weapons", kbWeapons)] }

/-- A stored legacy macro row. -/
def rowA : MacroRow :=
  { rid := 1, name := "alpha", triggerPhrase := "alpha",
    actionType := some "press_key", keysJson := some ["a"], duration := 0,
    actionSteps := Option.none, schemaVersion := 1, response := some "ok" }

/-- A second stored legacy macro row. -/
def rowB : MacroRow :=
  { rid := 2, name := "beta", triggerPhrase := "beta",
    actionType := some "press_key", keysJson := some ["b"], duration := 0,
    actionSteps := Option.none, schemaVersion := 1, response := some "ok" }

/-- A store holding exactly two macros. -/
def store2 : MacroStore := { rows := [rowA, rowB], nextId := 3 }

/-- A one-step v2 payload used in witnesses. -/
def pyStepA : Py :=
  .dict [("action_type", .str "press_key"), ("keys", .list [.str "a"])]

/-- The store after creating the v2 witness macro in an empty store. -/
def storeV2W : MacroStore :=
  { rows := [mkRow 1 "combat" "combat mode" Option.none Option.none 0
      (some [pyStepA]) 2 (some "ok")], nextId := 2 }

/-- The store after creating the legacy witness macro in an empty store. -/
def storeLegW : MacroStore :=
  { rows := [mkRow 1 "gear" "landing gear" (some "press_key") (some ["n"]) 0
      Option.none 1 (some "ok")], nextId := 2 }

/-- The data of a macro document that the round-trip claim compares: name,
    trigger phrase, response, and the payload (action_steps versus
    action_type/keys/duration). -/
def macroEquivData (m : MacroDict) :
    String × String × Option String × Option (List Py) × Option String ×
      Option (List String) × Option ℚ :=
  (m.name, m.triggerPhrase, m.response, m.actionSteps, m.actionType, m.keys,
   m.duration)

/-- The shapes export_json actually emits: a legacy document carries a
    keys list and a duration; a v2 document carries a nonempty step list
    and masked legacy fields. -/
def DocOK (d : MacroDict) : Prop :=
  (d.actionSteps = Option.none ∧ (∃ l, d.keys = some l) ∧
    (∃ q, d.duration = some q)) ∨
  (∃ p ps, d.actionSteps = some (p :: ps) ∧ d.actionType = Option.none ∧
    d.keys = Option.none ∧ d.duration = Option.none)

/-- The row invariants MacroStorage.create maintains: the action_steps
    column is NULL or a nonempty JSON array, and the keys column is NULL
    or a nonempty JSON array. -/
def RowWF (r : MacroRow) : Prop :=
  (r.actionSteps = Option.none ∨ ∃ p ps, r.actionSteps = some (p :: ps)) ∧
  (r.keysJson = Option.none ∨ ∃ k ks, r.keysJson = some (k :: ks))

/-- The store invariants: well-formed rows and the UNIQUE(name)
    constraint. -/
def StoreWF (s : MacroStore) : Prop :=
  (∀ r ∈ s.rows, RowWF r) ∧ (s.rows.map (fun r => r.name)).Nodup

/-- A well-formed one-macro store for the round-trip witness. -/
def store1 : MacroStore := { rows := [rowA], nextId := 2 }

/-- Appending an element and erasing its first occurrence is a permutation
    of the original list. -/
theorem perm_erase_append_singleton {α : Type} [DecidableEq α] (l : List α) (k : α) :
    ((l ++ [k]).erase k).Perm l := by
  induction l with
  | nil => simp
  | cons a t ih =>
    by_cases h : a = k
    · subst h
      simp only [List.cons_append, List.erase_cons_head]
      exact List.perm_append_singleton a t
    · rw [List.cons_append, List.erase_cons_tail (by simpa using h)]
      exact ih.cons a

/-- C1: the held-key set is touched only by hold_key: hold_key appends the
    resolved key before its timed wait (the mid state between press and
    release tracks it), the held list after a normal hold_key return is a
    permutation of (as a set: equal to) its value before the call, and
    key_combo and press_key leave the held list untouched. -/
theorem heldKeys_discipline (e : Exec) (key : String) (d hd : Option ℚ)
    (ks : List String) :
    resolveKey key ∈ (holdKeyMid e key).held ∧
    ((holdKey e key d).st.held).Perm e.held ∧
    (keyCombo e ks hd).st.held = e.held ∧
    (pressKey e key d).st.held = e.held := by
  refine ⟨by simp [holdKeyMid], ?_, ?_, ?_⟩
  · unfold holdKey isGameFocused
    by_cases hrf : e.requireFocus = false
    · simp only [hrf, if_true, if_pos rfl]
      simp only [Bool.true_eq_false, if_false, holdKeyMid]
      rw [if_pos (by simp)]
      exact perm_erase_append_singleton e.held (resolveKey key)
    · simp only [hrf, if_false]
      by_cases hfa : e.focusAnswers e.focusCalls = false
      · simp [hfa]
      · simp only [Bool.not_eq_false] at hfa
        simp only [hfa, Bool.true_eq_false, if_false, holdKeyMid]
        rw [if_pos (by simp)]
        exact perm_erase_append_singleton e.held (resolveKey key)
  · unfold keyCombo isGameFocused
    by_cases hrf : e.requireFocus = false
    · by_cases hks : ks.isEmpty <;> simp [hrf, hks]
    · by_cases hfa : e.focusAnswers e.focusCalls = false
      · simp [hrf, hfa]
      · simp only [Bool.not_eq_false] at hfa
        by_cases hks : ks.isEmpty <;> simp [hrf, hfa, hks]
  · unfold pressKey isGameFocused
    by_cases hrf : e.requireFocus = false
    · simp [hrf]
    · by_cases hfa : e.focusAnswers e.focusCalls = false
      · simp [hrf, hfa]
      · simp only [Bool.not_eq_false] at hfa
        simp [hrf, hfa]

/-- C2: with focus checking enabled and the OS report "not focused", each
    of press_key, hold_key, key_combo and type_string returns False,
    emits no press/release/sleep effect, and leaves the held list
    unchanged. -/
theorem focus_denied_blocks_all (e : Exec) (key : String) (d hd : Option ℚ)
    (ks : List String) (txt : String) (dl : ℚ)
    (h1 : e.requireFocus = true) (h2 : e.focusAnswers e.focusCalls = false) :
    ((pressKey e key d).ok = false ∧ (pressKey e key d).trace = [] ∧
      (pressKey e key d).st.held = e.held) ∧
    ((holdKey e key d).ok = false ∧ (holdKey e key d).trace = [] ∧
      (holdKey e key d).st.held = e.held) ∧
    ((keyCombo e ks hd).ok = false ∧ (keyCombo e ks hd).trace = [] ∧
      (keyCombo e ks hd).st.held = e.held) ∧
    ((typeString e txt dl).ok = false ∧ (typeString e txt dl).trace = [] ∧
      (typeString e txt dl).st.held = e.held) := by
  simp [pressKey, holdKey, keyCombo, typeString, isGameFocused, h1, h2]

/-- Witness for C2 at a concrete executor and inputs. -/
theorem focus_denied_blocks_all_witness :
    (deniedExec.requireFocus = true ∧
     deniedExec.focusAnswers deniedExec.focusCalls = false) ∧
    (((pressKey deniedExec "n" Option.none).ok = false ∧
       (pressKey deniedExec "n" Option.none).trace = [] ∧
       (pressKey deniedExec "n" Option.none).st.held = deniedExec.held) ∧
     ((holdKey deniedExec "n" Option.none).ok = false ∧
       (holdKey deniedExec "n" Option.none).trace = [] ∧
       (holdKey deniedExec "n" Option.none).st.held = deniedExec.held) ∧
     ((keyCombo deniedExec ["ctrl", "n"] Option.none).ok = false ∧
       (keyCombo deniedExec ["ctrl", "n"] Option.none).trace = [] ∧
       (keyCombo deniedExec ["ctrl", "n"] Option.none).st.held = deniedExec.held) ∧
     ((typeString deniedExec "hello" 1).ok = false ∧
       (typeString deniedExec "hello" 1).trace = [] ∧
       (typeString deniedExec "hello" 1).st.held = deniedExec.held)) :=
  ⟨⟨rfl, rfl⟩,
   focus_denied_blocks_all deniedExec "n" Option.none Option.none ["ctrl", "n"]
     "hello" 1 rfl rfl⟩

/-- Case analysis of one repetition body: a successful repetition emits
    exactly the succBlock of the configuration, a failed one emits nothing,
    and the timing configuration is preserved either way. -/
theorem execStepOnce_cases (e : Exec) (s : StepDict) (k : String) :
    ((execStepOnce e s k).ok = true →
      (execStepOnce e s k).trace = succBlock e.pressDuration e.holdDuration e.comboDelay s k) ∧
    ((execStepOnce e s k).ok = false → (execStepOnce e s k).trace = []) ∧
    ((execStepOnce e s k).st.pressDuration = e.pressDuration ∧
     (execStepOnce e s k).st.holdDuration = e.holdDuration ∧
     (execStepOnce e s k).st.comboDelay = e.comboDelay) := by
  unfold execStepOnce succBlock
  by_cases h1 : s.actionType = "press_key"
  · simp only [h1, if_true, if_pos rfl]
    unfold pressKey isGameFocused
    by_cases hrf : e.requireFocus = false
    · simp [hrf, pyOrQ]
    · cases hb : e.focusAnswers e.focusCalls <;> simp [hrf, hb, pyOrQ]
  · by_cases h2 : s.actionType = "hold_key"
    · simp only [h1, h2, if_false, if_true, if_pos rfl, if_neg h1]
      unfold holdKey isGameFocused
      by_cases hrf : e.requireFocus = false
      · simp [hrf, holdKeyMid]
      · cases hb : e.focusAnswers e.focusCalls <;> simp [hrf, hb, holdKeyMid]
    · by_cases h3 : s.actionType = "key_combo"
      · simp only [h1, h2, h3, if_false, if_true, if_pos rfl, if_neg h1, if_neg h2]
        unfold keyCombo isGameFocused
        by_cases hrf : e.requireFocus = false
        · by_cases hks : s.keys.isEmpty
          · simp [hrf, hks]
          · by_cases hd : s.duration > 0
            · have hne : ¬ (s.duration = 0) := ne_of_gt hd
              simp [hrf, hks, hd, hne]
            · simp [hrf, hks, hd]
        · cases hb : e.focusAnswers e.focusCalls
          · simp [hrf, hb]
          · by_cases hks : s.keys.isEmpty
            · simp [hrf, hb, hks]
            · by_cases hd : s.duration > 0
              · have hne : ¬ (s.duration = 0) := ne_of_gt hd
                simp [hrf, hb, hks, hd, hne]
              · simp [hrf, hb, hks, hd]
      · simp [h1, h2, h3]

/-- Full specification of the execute_step repetition loop: on success all
    n repetitions ran and the trace is the n blocks separated by the
    inter-repetition sleep; on failure the completed repetitions (each
    followed by its sleep) stand and the failing one emitted nothing.  The
    timing configuration is preserved throughout. -/
theorem execStepLoop_spec (s : StepDict) (k : String) (db : ℚ) :
    ∀ (n : Nat) (e : Exec),
    ((execStepLoop s k db e n).ok = true →
       (execStepLoop s k db e n).reps = n ∧
       (execStepLoop s k db e n).trace =
         blocksTrace n (succBlock e.pressDuration e.holdDuration e.comboDelay s k)
           (if db > 0 then [Ev.sleep db] else [])) ∧
    ((execStepLoop s k db e n).ok = false →
       (execStepLoop s k db e n).reps < n ∧
       (execStepLoop s k db e n).trace =
         (List.replicate (execStepLoop s k db e n).reps
           (succBlock e.pressDuration e.holdDuration e.comboDelay s k ++
            (if db > 0 then [Ev.sleep db] else []))).flatten) ∧
    ((execStepLoop s k db e n).st.pressDuration = e.pressDuration ∧
     (execStepLoop s k db e n).st.holdDuration = e.holdDuration ∧
     (execStepLoop s k db e n).st.comboDelay = e.comboDelay) := by
  intro n
  induction n with
  | zero =>
    intro e
    refine ⟨fun _ => ⟨rfl, rfl⟩, fun h => absurd h (by simp [execStepLoop]), ?_⟩
    simp [execStepLoop]
  | succ m ih =>
    intro e
    have once := execStepOnce_cases e s k
    have hunf : execStepLoop s k db e (m + 1) =
        (if (execStepOnce e s k).ok = false then
          ⟨false, (execStepOnce e s k).st, (execStepOnce e s k).trace, 0⟩
        else if m = 0 then
          ⟨true, (execStepOnce e s k).st, (execStepOnce e s k).trace, 1⟩
        else
          let mid := if db > 0 then [Ev.sleep db] else []
          let rest := execStepLoop s k db (execStepOnce e s k).st m
          ⟨rest.ok, rest.st, (execStepOnce e s k).trace ++ mid ++ rest.trace,
            1 + rest.reps⟩ : EResult) := rfl
    cases hok : (execStepOnce e s k).ok with
    | false =>
      have htr := once.2.1 hok
      rw [hunf, if_pos hok]
      refine ⟨fun h => by simp at h, fun _ => ⟨Nat.succ_pos m, by simp [htr]⟩, once.2.2⟩
    | true =>
      have htr := once.1 hok
      have hcfg := once.2.2
      rw [hunf, if_neg (by simp [hok])]
      by_cases hm : m = 0
      · subst hm
        rw [if_pos rfl]
        refine ⟨fun _ => ⟨rfl, by simp [htr, blocksTrace]⟩, fun h => by simp at h, hcfg⟩
      · rw [if_neg hm]
        obtain ⟨j, rfl⟩ : ∃ j, m = j + 1 := ⟨m - 1, (Nat.succ_pred_eq_of_pos
          (Nat.pos_of_ne_zero hm)).symm⟩
        have ihr := ih (execStepOnce e s k).st
        have hblk :
            succBlock (execStepOnce e s k).st.pressDuration
              (execStepOnce e s k).st.holdDuration
              (execStepOnce e s k).st.comboDelay s k =
            succBlock e.pressDuration e.holdDuration e.comboDelay s k := by
          rw [hcfg.1, hcfg.2.1, hcfg.2.2]
        have hcfg2 : (execStepLoop s k db (execStepOnce e s k).st (j + 1)).st.pressDuration =
              e.pressDuration ∧
            (execStepLoop s k db (execStepOnce e s k).st (j + 1)).st.holdDuration =
              e.holdDuration ∧
            (execStepLoop s k db (execStepOnce e s k).st (j + 1)).st.comboDelay =
              e.comboDelay :=
          ⟨by rw [ihr.2.2.1, hcfg.1], by rw [ihr.2.2.2.1, hcfg.2.1],
           by rw [ihr.2.2.2.2, hcfg.2.2]⟩
        cases hrok : (execStepLoop s k db (execStepOnce e s k).st (j + 1)).ok with
        | true =>
          have hr := ihr.1 hrok
          refine ⟨fun _ => ⟨by simp only [hr.1]; omega, ?_⟩,
            fun h => by simp [hrok] at h, hcfg2⟩
          show (execStepOnce e s k).trace ++ _ ++ _ = _
          rw [htr, hr.2, hblk]
          show succBlock e.pressDuration e.holdDuration e.comboDelay s k ++
              (if db > 0 then [Ev.sleep db] else []) ++
              blocksTrace (j + 1) (succBlock e.pressDuration e.holdDuration e.comboDelay s k)
                (if db > 0 then [Ev.sleep db] else []) =
            blocksTrace (j + 1 + 1) (succBlock e.pressDuration e.holdDuration e.comboDelay s k)
              (if db > 0 then [Ev.sleep db] else [])
          rw [blocksTrace, blocksTrace, List.replicate_succ, List.flatten_cons]
          simp [List.append_assoc]
        | false =>
          have hr := ihr.2.1 hrok
          refine ⟨fun h => by simp [hrok] at h, fun _ => ⟨?_, ?_⟩, hcfg2⟩
          · show 1 + (execStepLoop s k db (execStepOnce e s k).st (j + 1)).reps < j + 1 + 1
            omega
          · show (execStepOnce e s k).trace ++ _ ++ _ =
              (List.replicate (1 + (execStepLoop s k db (execStepOnce e s k).st (j + 1)).reps)
                (succBlock e.pressDuration e.holdDuration e.comboDelay s k ++
                 (if db > 0 then [Ev.sleep db] else []))).flatten
            rw [htr, hr.2, hblk, Nat.add_comm 1, List.replicate_succ, List.flatten_cons]

/-- C3: for an ActionStep with repeat_count N in [1, 50], a successful
    execute_step performs exactly N repetitions, the trace is the N
    repetition blocks with the inter-repetition sleep after every block
    except the last, followed by exactly one delay_after sleep; a failed
    execute_step stops before completing N repetitions, the completed
    repetitions are kept (their effects stay in the trace, nothing is
    rolled back), the failing repetition emits nothing, and no delay_after
    sleep is emitted. -/
theorem executeStep_repeats_and_delays (e : Exec) (s : StepDict)
    (h1 : 1 ≤ s.repeatCount) (h2 : s.repeatCount ≤ 50) :
    ((executeStep e s).ok = true →
       (executeStep e s).reps = s.repeatCount.toNat ∧
       (executeStep e s).trace =
         blocksTrace s.repeatCount.toNat
           (succBlock e.pressDuration e.holdDuration e.comboDelay s (s.keys.headD ""))
           (midSleep (stepDelayBetween s)) ++ afterSleep s) ∧
    ((executeStep e s).ok = false →
       (executeStep e s).reps < s.repeatCount.toNat ∧
       (executeStep e s).trace =
         (List.replicate (executeStep e s).reps
           (succBlock e.pressDuration e.holdDuration e.comboDelay s (s.keys.headD "") ++
            midSleep (stepDelayBetween s))).flatten) := by
  have hmin : min s.repeatCount 50 = s.repeatCount := min_eq_left h2
  have hn : 1 ≤ s.repeatCount.toNat := by omega
  have hunf : executeStep e s =
      (if s.keys.isEmpty then ⟨false, e, [], 0⟩
       else
         let r := execStepLoop s (s.keys.headD "") (stepDelayBetween s) e
           (min s.repeatCount 50).toNat
         if r.ok = false then r
         else ⟨true, r.st, r.trace ++ afterSleep s, r.reps⟩ : EResult) := rfl
  by_cases hk : s.keys.isEmpty
  · rw [hunf, if_pos hk]
    refine ⟨fun h => by simp at h, fun _ => ⟨?_, by simp⟩⟩
    show (0 : Nat) < s.repeatCount.toNat
    omega
  · rw [hunf, if_neg hk, hmin]
    have spec := execStepLoop_spec s (s.keys.headD "") (stepDelayBetween s)
      s.repeatCount.toNat e
    cases hrok : (execStepLoop s (s.keys.headD "") (stepDelayBetween s) e
        s.repeatCount.toNat).ok with
    | false =>
      rw [if_pos hrok]
      exact ⟨fun h => by rw [hrok] at h; simp at h, fun _ => spec.2.1 hrok⟩
    | true =>
      rw [if_neg (by rw [hrok]; simp)]
      refine ⟨fun _ => ⟨(spec.1 hrok).1, ?_⟩, fun h => by simp at h⟩
      show _ ++ afterSleep s = _
      rw [(spec.1 hrok).2, midSleep]

/-- C4 counterexample: a step dictionary with repeat_count 0 handed
    directly to execute_step is not raised to 1: the call succeeds having
    performed zero repetitions and emitted no effect at all, so the claimed
    clamp of repeat_count into [1, 50] does not happen in the executor. -/
theorem executeStep_zero_repeat_not_clamped :
    (executeStep freeExec { keys := ["a"], repeatCount := 0 }).ok = true ∧
    (executeStep freeExec { keys := ["a"], repeatCount := 0 }).reps = 0 ∧
    (executeStep freeExec { keys := ["a"], repeatCount := 0 }).trace = [] :=
  ⟨rfl, rfl, rfl⟩

/-- The loop never exceeds its repetition budget. -/
theorem execStepLoop_reps_le (s : StepDict) (k : String) (db : ℚ) (n : Nat) (e : Exec) :
    (execStepLoop s k db e n).reps ≤ n := by
  have spec := execStepLoop_spec s k db n e
  cases hok : (execStepLoop s k db e n).ok with
  | true => exact le_of_eq (spec.1 hok).1
  | false => exact le_of_lt (spec.2.1 hok).1

/-- Bounds of parseStep1: a produced step has repeat_count in [1, 50]. -/
theorem parseStep1_repeat (maxDur : ℚ) (step : Py) (st : AStep)
    (h : parseStep1 maxDur step = .ok (some st)) :
    1 ≤ st.repeatCount ∧ st.repeatCount ≤ 50 := by
  cases step with
  | dict sd =>
    simp only [parseStep1] at h
    cases hn : normalizeKeysE (dictGet sd "keys" (.list [])) with
    | error err => rw [hn] at h; simp at h
    | ok keys =>
      simp only [hn] at h
      by_cases hv : (keys.filter (fun k => k ∈ allowedKeys)).isEmpty
      · rw [if_pos hv] at h
        simp at h
      · rw [if_neg hv] at h
        simp only [Except.ok.injEq, Option.some.injEq] at h
        subst h
        cases hi : pyIntE (dictGet sd "repeat_count" (.int 1)) with
        | ok n =>
          simp only [hi]
          constructor
          · exact le_max_left 1 (min n 50)
          · exact max_le (by norm_num) (min_le_right n 50)
        | error err => simp [hi]
  | none => simp [parseStep1] at h
  | bool b => simp [parseStep1] at h
  | int n => simp [parseStep1] at h
  | float q => simp [parseStep1] at h
  | str s2 => simp [parseStep1] at h
  | list xs => simp [parseStep1] at h

/-- Bounds of the _parse_action_steps loop. -/
theorem parseStepsList_repeat (maxDur : ℚ) :
    ∀ (items : List Py) (l : List AStep), parseStepsList maxDur items = .ok l →
      ∀ a ∈ l, 1 ≤ a.repeatCount ∧ a.repeatCount ≤ 50 := by
  intro items
  induction items with
  | nil =>
    intro l h a ha
    simp only [parseStepsList, Except.ok.injEq] at h
    subst h
    simp at ha
  | cons step rest ih =>
    intro l h a ha
    simp only [parseStepsList] at h
    cases hp : parseStep1 maxDur step with
    | error err => rw [hp] at h; simp at h
    | ok o =>
      rw [hp] at h
      cases o with
      | none => exact ih l h a ha
      | some st =>
        cases hr : parseStepsList maxDur rest with
        | error err => rw [hr] at h; simp at h
        | ok l2 =>
          rw [hr] at h
          simp only [Except.ok.injEq] at h
          subst h
          rcases List.mem_cons.mp ha with rfl | hmem
          · exact parseStep1_repeat maxDur step a hp
          · exact ih l2 hr a hmem

/-- C4 amended: repeat_count clamping into [1, 50] happens in the Command
    Interpreter (every parsed ActionStep has repeat_count in that range),
    but the Action Executor clamps only from above: execute_step never
    performs more than 50 repetitions, and a step dictionary whose
    repeat_count is 0 or negative performs zero repetitions rather than
    being raised to 1. -/
theorem repeatCount_clamping :
    (∀ (maxDur : ℚ) (steps : Py) (l : List AStep),
       parseActionStepsE maxDur steps = .ok l →
       ∀ a ∈ l, 1 ≤ a.repeatCount ∧ a.repeatCount ≤ 50) ∧
    (∀ (e : Exec) (s : StepDict), (executeStep e s).reps ≤ 50) ∧
    (∀ (e : Exec) (s : StepDict), s.repeatCount ≤ 0 → (executeStep e s).reps = 0) := by
  refine ⟨?_, ?_, ?_⟩
  · intro maxDur steps l h a ha
    unfold parseActionStepsE at h
    cases hi : pyIterate steps with
    | error err => rw [hi] at h; simp at h
    | ok items =>
      rw [hi] at h
      exact parseStepsList_repeat maxDur items l h a ha
  · intro e s
    have hunf : executeStep e s =
        (if s.keys.isEmpty then ⟨false, e, [], 0⟩
         else
           let r := execStepLoop s (s.keys.headD "") (stepDelayBetween s) e
             (min s.repeatCount 50).toNat
           if r.ok = false then r
           else ⟨true, r.st, r.trace ++ afterSleep s, r.reps⟩ : EResult) := rfl
    rw [hunf]
    by_cases hk : s.keys.isEmpty
    · simp [hk]
    · rw [if_neg hk]
      have hle := execStepLoop_reps_le s (s.keys.headD "") (stepDelayBetween s)
        (min s.repeatCount 50).toNat e
      have htop : (min s.repeatCount 50).toNat ≤ 50 := by
        have : min s.repeatCount 50 ≤ 50 := min_le_right _ _
        omega
      cases hrok : (execStepLoop s (s.keys.headD "") (stepDelayBetween s) e
          (min s.repeatCount 50).toNat).ok with
      | false => rw [if_pos hrok]; omega
      | true => rw [if_neg (by rw [hrok]; simp)]; exact le_trans hle htop
  · intro e s hs
    have hz : (min s.repeatCount 50).toNat = 0 := by
      have : min s.repeatCount 50 ≤ s.repeatCount := min_le_left _ _
      omega
    have hunf : executeStep e s =
        (if s.keys.isEmpty then ⟨false, e, [], 0⟩
         else
           let r := execStepLoop s (s.keys.headD "") (stepDelayBetween s) e
             (min s.repeatCount 50).toNat
           if r.ok = false then r
           else ⟨true, r.st, r.trace ++ afterSleep s, r.reps⟩ : EResult) := rfl
    rw [hunf]
    by_cases hk : s.keys.isEmpty
    · simp [hk]
    · rw [if_neg hk, hz]
      simp [execStepLoop]

/-- Witness for C3 at a concrete executor and step. -/
theorem executeStep_repeats_and_delays_witness :
    (1 ≤ c3Step.repeatCount ∧ c3Step.repeatCount ≤ 50) ∧
    (((executeStep freeExec c3Step).ok = true →
       (executeStep freeExec c3Step).reps = c3Step.repeatCount.toNat ∧
       (executeStep freeExec c3Step).trace =
         blocksTrace c3Step.repeatCount.toNat
           (succBlock freeExec.pressDuration freeExec.holdDuration freeExec.comboDelay
             c3Step (c3Step.keys.headD ""))
           (midSleep (stepDelayBetween c3Step)) ++ afterSleep c3Step) ∧
     ((executeStep freeExec c3Step).ok = false →
       (executeStep freeExec c3Step).reps < c3Step.repeatCount.toNat ∧
       (executeStep freeExec c3Step).trace =
         (List.replicate (executeStep freeExec c3Step).reps
           (succBlock freeExec.pressDuration freeExec.holdDuration freeExec.comboDelay
             c3Step (c3Step.keys.headD "") ++
            midSleep (stepDelayBetween c3Step))).flatten)) :=
  ⟨⟨by decide, by decide⟩,
   executeStep_repeats_and_delays freeExec c3Step (by decide) (by decide)⟩

/-- Witness for the amended C4: the oversized interpreter step is clamped
    into [1, 50], and a negative executor-level repeat_count performs zero
    repetitions. -/
theorem repeatCount_clamping_witness :
    parseActionStepsE 5 stepsPy99 = .ok [step99] ∧
    (1 ≤ step99.repeatCount ∧ step99.repeatCount ≤ 50) ∧
    (executeStep freeExec { keys := ["a"], repeatCount := -2 }).reps = 0 :=
  ⟨rfl,
   repeatCount_clamping.1 5 stepsPy99 [step99] rfl step99 (by simp),
   repeatCount_clamping.2.2 freeExec { keys := ["a"], repeatCount := -2 } (by decide)⟩

/-- _normalize_keys succeeds on its acceptable values. -/
theorem normalizeKeysE_ok (v : Py) (h : keysOkB v = true) :
    ∃ l, normalizeKeysE v = .ok l := by
  by_cases ht : v.truthy = false
  · exact ⟨[], by simp [normalizeKeysE, ht]⟩
  · cases v with
    | str s =>
      exact ⟨_, by unfold normalizeKeysE; rw [if_neg ht]⟩
    | list xs =>
      exact ⟨xs.filterMap (fun it =>
          let t := strStrip (strLower it.toStr)
          if t.data.isEmpty then Option.none else some t), by
        unfold normalizeKeysE
        rw [if_neg ht]
        rfl⟩
    | dict xs =>
      exact ⟨(xs.map (fun p => Py.str p.1)).filterMap (fun it =>
          let t := strStrip (strLower it.toStr)
          if t.data.isEmpty then Option.none else some t), by
        unfold normalizeKeysE
        rw [if_neg ht]
        rfl⟩
    | none => simp [keysOkB, Py.truthy] at h ht
    | bool b => simp [keysOkB] at h; simp [h] at ht
    | int n => simp [keysOkB] at h; simp [h] at ht
    | float q => simp [keysOkB] at h; simp [h] at ht

/-- One _parse_action_steps entry succeeds when acceptable. -/
theorem parseStep1_ok (maxDur : ℚ) (p : Py) (h : stepElemOkB p = true) :
    ∃ o, parseStep1 maxDur p = .ok o := by
  cases p with
  | dict sd =>
    obtain ⟨l, hl⟩ := normalizeKeysE_ok _ (by simpa [stepElemOkB] using h)
    cases hv : (l.filter (fun k => k ∈ allowedKeys)).isEmpty with
    | true =>
      refine ⟨Option.none, ?_⟩
      simp only [parseStep1, hl]
      rw [if_pos hv]
    | false =>
      exact ⟨_, by simp only [parseStep1, hl]; rw [if_neg (by simp [hv])]⟩
  | none => exact ⟨Option.none, rfl⟩
  | bool b => exact ⟨Option.none, rfl⟩
  | int n => exact ⟨Option.none, rfl⟩
  | float q => exact ⟨Option.none, rfl⟩
  | str s => exact ⟨Option.none, rfl⟩
  | list xs => exact ⟨Option.none, rfl⟩

/-- The step loop succeeds when every entry is acceptable. -/
theorem parseStepsList_ok (maxDur : ℚ) :
    ∀ items : List Py, items.all stepElemOkB = true →
      ∃ l, parseStepsList maxDur items = .ok l := by
  intro items
  induction items with
  | nil => exact fun _ => ⟨[], rfl⟩
  | cons p rest ih =>
    intro h
    simp only [List.all_cons, Bool.and_eq_true] at h
    obtain ⟨o, ho⟩ := parseStep1_ok maxDur p h.1
    obtain ⟨l, hl⟩ := ih h.2
    cases o with
    | none => exact ⟨l, by simp only [parseStepsList, ho, hl]⟩
    | some st => exact ⟨st :: l, by simp only [parseStepsList, ho, hl]⟩

/-- _parse_action_steps succeeds on acceptable containers. -/
theorem parseActionStepsE_ok (maxDur : ℚ) (v : Py) (h : stepsOkB v = true) :
    ∃ l, parseActionStepsE maxDur v = .ok l := by
  cases v with
  | list xs =>
    obtain ⟨l, hl⟩ := parseStepsList_ok maxDur xs (by simpa [stepsOkB] using h)
    exact ⟨l, by simp only [parseActionStepsE, pyIterate, hl]⟩
  | dict xs =>
    obtain ⟨l, hl⟩ := parseStepsList_ok maxDur (xs.map (fun p => Py.str p.1))
      (by
        rw [List.all_eq_true]
        intro x hx
        rw [List.mem_map] at hx
        obtain ⟨p, hp, rfl⟩ := hx
        rfl)
    exact ⟨l, by simp only [parseActionStepsE, pyIterate, hl]⟩
  | str s =>
    obtain ⟨l, hl⟩ := parseStepsList_ok maxDur (s.data.map (fun c => Py.str (String.mk [c])))
      (by
        rw [List.all_eq_true]
        intro x hx
        rw [List.mem_map] at hx
        obtain ⟨p, hp, rfl⟩ := hx
        rfl)
    exact ⟨l, by simp only [parseActionStepsE, pyIterate, hl]⟩
  | none => simp [stepsOkB] at h
  | bool b => simp [stepsOkB] at h
  | int n => simp [stepsOkB] at h
  | float q => simp [stepsOkB] at h

/-- C5 counterexample: parse raises (AttributeError) on an intent document
    whose action value is the integer 5, because the code calls .lower()
    on it; so parse does not return a Command for every input dictionary. -/
theorem parse_raises_on_nonstring_action :
    interpParse 5 [("action", Py.int 5)] = .error .attrError := rfl

/-- C5 amended: parse returns a Command without raising for every intent
    document in its no-raise domain — the action value (when present) is a
    string, the keys value is falsy or a string/list/dict, a
    complex_action steps container is iterable with acceptable entries,
    create_macro carries a string macro_name and an acceptable
    macro_steps/macro_keys value, delete_macro a string macro_name.  The
    command type is CommandType(action.lower()), so any unrecognized
    action name yields Unknown. -/
theorem parse_no_raise (maxDur : ℚ) (iv : List (String × Py))
    (h : parseWF iv = true) :
    ∃ c, interpParse maxDur iv = .ok c ∧
      (∀ a, dictGet iv "action" (.str "") = .str a →
        c.ctype = CmdType.ofString (strLower a)) := by
  cases ha : dictGet iv "action" (.str "") with
  | str a =>
    rw [parseWF, ha] at h
    simp only [Bool.and_eq_true] at h
    obtain ⟨⟨⟨hkeysOk, hcplx⟩, hcreate⟩, hdel⟩ := h
    obtain ⟨keys, hkeys⟩ := normalizeKeysE_ok _ hkeysOk
    suffices hs : ∃ c, interpParse maxDur iv = .ok c ∧
        c.ctype = CmdType.ofString (strLower a) by
      obtain ⟨c, hc1, hc2⟩ := hs
      refine ⟨c, hc1, fun a2 ha2 => ?_⟩
      injection ha2 with hinj
      rw [← hinj]
      exact hc2
    unfold interpParse
    simp only [ha, pyLowerE, hkeys]
    by_cases hc : CmdType.ofString (strLower a) = .complex_action
    · rw [if_pos hc] at hcplx
      obtain ⟨st, hst⟩ := parseActionStepsE_ok maxDur _ hcplx
      have hne1 : CmdType.ofString (strLower a) ≠ .createMacro := by rw [hc]; intro hx; cases hx
      have hne2 : CmdType.ofString (strLower a) ≠ .deleteMacro := by rw [hc]; intro hx; cases hx
      have hne3 : ¬ (CmdType.ofString (strLower a) = .press_key ∨
          CmdType.ofString (strLower a) = .hold_key ∨
          CmdType.ofString (strLower a) = .key_combo) := by
        rw [hc]; intro hx; rcases hx with hx | hx | hx <;> cases hx
      simp only [hc, if_true, if_pos rfl, hst, Except.map, hne1, hne2, hne3, if_false,
        if_neg hne1, if_neg hne2, if_neg hne3]
      exact ⟨_, rfl, rfl⟩

    · by_cases hcr : CmdType.ofString (strLower a) = .createMacro
      · rw [if_pos hcr] at hcreate
        simp only [Bool.and_eq_true] at hcreate
        obtain ⟨hmn, hpayload⟩ := hcreate
        have hne2 : CmdType.ofString (strLower a) ≠ .deleteMacro := by
          rw [hcr]; intro hx; cases hx
        have hne3 : ¬ (CmdType.ofString (strLower a) = .press_key ∨
            CmdType.ofString (strLower a) = .hold_key ∨
            CmdType.ofString (strLower a) = .key_combo) := by
          rw [hcr]; intro hx; rcases hx with hx | hx | hx <;> cases hx
        cases hmv : dictGet iv "macro_name" (.str "") with
        | str m =>
          simp only [if_neg hc, if_pos hcr, if_neg hne3, parseCreateBlock, hmv,
            pyStripLowerE]
          by_cases hms : dictHas iv "macro_steps"
          · rw [if_pos hms] at hpayload
            obtain ⟨ms, hmsok⟩ := parseActionStepsE_ok maxDur _ hpayload
            simp only [hms, if_true, if_pos rfl, hmsok, Except.map]
            exact ⟨_, rfl, rfl⟩
          · rw [if_neg hms] at hpayload
            obtain ⟨mk2, hmkok⟩ := normalizeKeysE_ok _ hpayload
            simp only [hms, if_false, Bool.false_eq_true, hmkok, Except.map]
            exact ⟨_, rfl, rfl⟩
        | none => rw [hmv] at hmn; simp [strOkB] at hmn
        | bool b => rw [hmv] at hmn; simp [strOkB] at hmn
        | int n => rw [hmv] at hmn; simp [strOkB] at hmn
        | float q => rw [hmv] at hmn; simp [strOkB] at hmn
        | list xs => rw [hmv] at hmn; simp [strOkB] at hmn
        | dict xs => rw [hmv] at hmn; simp [strOkB] at hmn
      · by_cases hdl : CmdType.ofString (strLower a) = .deleteMacro
        · rw [if_pos hdl] at hdel
          have hne3 : ¬ (CmdType.ofString (strLower a) = .press_key ∨
              CmdType.ofString (strLower a) = .hold_key ∨
              CmdType.ofString (strLower a) = .key_combo) := by
            rw [hdl]; intro hx; rcases hx with hx | hx | hx <;> cases hx
          cases hmv : dictGet iv "macro_name" (.str "") with
          | str m =>
            simp only [if_neg hc, if_neg hcr, if_pos hdl, if_neg hne3, hmv,
              pyStripLowerE, Except.map]
            exact ⟨_, rfl, rfl⟩
          | none => rw [hmv] at hdel; simp [strOkB] at hdel
          | bool b => rw [hmv] at hdel; simp [strOkB] at hdel
          | int n => rw [hmv] at hdel; simp [strOkB] at hdel
          | float q => rw [hmv] at hdel; simp [strOkB] at hdel
          | list xs => rw [hmv] at hdel; simp [strOkB] at hdel
          | dict xs => rw [hmv] at hdel; simp [strOkB] at hdel
        · simp only [if_neg hc, if_neg hcr, if_neg hdl]
          by_cases hkb : CmdType.ofString (strLower a) = .press_key ∨
              CmdType.ofString (strLower a) = .hold_key ∨
              CmdType.ofString (strLower a) = .key_combo
          · simp only [if_pos hkb]
            exact ⟨_, rfl, rfl⟩
          · simp only [if_neg hkb]
            exact ⟨_, rfl, rfl⟩
  | none => rw [parseWF, ha] at h; simp at h
  | bool b => rw [parseWF, ha] at h; simp at h
  | int n => rw [parseWF, ha] at h; simp at h
  | float q => rw [parseWF, ha] at h; simp at h
  | list xs => rw [parseWF, ha] at h; simp at h
  | dict xs => rw [parseWF, ha] at h; simp at h

/-- Witness for the amended C5: a document with an unrecognized action
    name is in the no-raise domain and parses to a Command. -/
theorem parse_no_raise_witness :
    parseWF [("action", Py.str "warp_drive")] = true ∧
    (∃ c, interpParse 5 [("action", Py.str "warp_drive")] = .ok c ∧
      (∀ a, dictGet [("action", Py.str "warp_drive")] "action" (.str "") = .str a →
        c.ctype = CmdType.ofString (strLower a))) :=
  ⟨by decide, parse_no_raise 5 [("action", Py.str "warp_drive")] (by decide)⟩

/-- C10: for a create_macro intent document without a macro_steps key,
    parse stores the legacy macro_keys exactly as _normalize_keys returns
    them (lowercased, stripped, empties dropped) with no allow-list
    filtering, so a key name outside ALLOWED_KEYS survives into
    Command.macro_keys — while the same key name is dropped from a
    press_key command and causes a complex_action step to be discarded. -/
theorem macroKeys_not_filtered :
    (∀ (maxDur : ℚ) (iv : List (String × Py)) (a : String) (c : Cmd)
       (ks : List String),
       dictGet iv "action" (.str "") = .str a →
       strLower a = "create_macro" →
       dictHas iv "macro_steps" = false →
       normalizeKeysE (dictGet iv "macro_keys" (.list [])) = .ok ks →
       interpParse maxDur iv = .ok c →
       c.macroKeys = some ks) ∧
    ((interpParse 5 docCreate).toOption.map (fun c => c.macroKeys) =
       some (some ["volume_up"])) ∧
    ("volume_up" ∉ allowedKeys) ∧
    ((interpParse 5 docPress).toOption.map (fun c => c.keys) = some []) ∧
    ((interpParse 5 docComplex).toOption.map (fun c => c.steps) = some []) := by
  refine ⟨?_, rfl, by decide, rfl, rfl⟩
  intro maxDur iv a c ks ha hla hms hmk hc
  have hct : CmdType.ofString (strLower a) = .createMacro := by rw [hla]; rfl
  unfold interpParse at hc
  simp only [ha, pyLowerE] at hc
  cases hk : normalizeKeysE (dictGet iv "keys" (.list [])) with
  | error e =>
    simp only [hk] at hc
    exact Except.noConfusion hc
  | ok keys0 =>
    simp only [hk] at hc
    have hne1 : ¬ (CmdType.ofString (strLower a) = .complex_action) := by
      rw [hct]; intro hx; cases hx
    have hne3 : ¬ (CmdType.ofString (strLower a) = .press_key ∨
        CmdType.ofString (strLower a) = .hold_key ∨
        CmdType.ofString (strLower a) = .key_combo) := by
      rw [hct]; intro hx; rcases hx with hx | hx | hx <;> cases hx
    simp only [if_neg hne1, if_pos hct] at hc
    unfold parseCreateBlock at hc
    cases hmv : dictGet iv "macro_name" (.str "") with
    | str m =>
      simp only [hmv, pyStripLowerE, hms, Bool.false_eq_true, if_false, hmk,
        Except.map, if_neg hne3] at hc
      injection hc with hinj
      rw [← hinj]
    | none => simp only [hmv, pyStripLowerE] at hc; exact Except.noConfusion hc
    | bool b => simp only [hmv, pyStripLowerE] at hc; exact Except.noConfusion hc
    | int n => simp only [hmv, pyStripLowerE] at hc; exact Except.noConfusion hc
    | float q => simp only [hmv, pyStripLowerE] at hc; exact Except.noConfusion hc
    | list xs => simp only [hmv, pyStripLowerE] at hc; exact Except.noConfusion hc
    | dict xs => simp only [hmv, pyStripLowerE] at hc; exact Except.noConfusion hc

/-- Witness for C10 at the concrete create_macro document. -/
theorem macroKeys_not_filtered_witness :
    (dictGet docCreate "action" (.str "") = .str "create_macro" ∧
     strLower "create_macro" = "create_macro" ∧
     dictHas docCreate "macro_steps" = false ∧
     normalizeKeysE (dictGet docCreate "macro_keys" (.list [])) = .ok ["volume_up"] ∧
     interpParse 5 docCreate = .ok cCreate) ∧
    cCreate.macroKeys = some ["volume_up"] :=
  ⟨⟨rfl, rfl, rfl, rfl, rfl⟩,
   macroKeys_not_filtered.1 5 docCreate "create_macro" cCreate ["volume_up"]
     rfl rfl rfl rfl rfl⟩

/-- C6 counterexample: against the catalog whose only alias is
    "power to weapons", the utterance "weapons" does resolve to the
    keybind — the partial-match stage of find_by_alias also checks whether
    the utterance is a substring of the alias, not only the claimed
    alias-in-utterance direction — whereas the claim says it resolves to
    no keybind. -/
theorem weapons_resolves_not_none :
    findByAlias mgrW "weapons" = some kbWeapons := rfl

/-- C6 amended: resolution proceeds in order with first hit winning, with
    stage (2) being containment in either direction (stored alias a
    substring of the utterance or the utterance a substring of the alias):
    an exact case-insensitive hit wins outright; otherwise the first alias
    containment-related to the utterance wins; "power weapons" resolves to
    the keybind via the fuzzy stage with score 2/3, and "weapons" alone
    resolves to the same keybind via containment (utterance inside alias)
    rather than resolving to nothing. -/
theorem trigger_resolution_order :
    (∀ (m : KeybindMgr) (q : String) (p : String × Keybind),
       m.aliasIdx.find? (fun r => r.1 = strStrip (strLower q)) = some p →
       findByAlias m q = some p.2) ∧
    (∀ (m : KeybindMgr) (q : String) (p : String × Keybind),
       m.aliasIdx.find? (fun r => r.1 = strStrip (strLower q)) = Option.none →
       m.aliasIdx.find? (fun r => strIn r.1 (strStrip (strLower q)) ||
         strIn (strStrip (strLower q)) r.1) = some p →
       findByAlias m q = some p.2) ∧
    fuzzyScore ((splitWS (strStrip (strLower "power weapons"))).dedup)
      "power to weapons" = ((2 : Nat) : ℚ) / ((3 : Nat) : ℚ) ∧
    findByAlias mgrW "power weapons" = some kbWeapons ∧
    findByAlias mgrW "weapons" = some kbWeapons := by
  have hsc : fuzzyScore ((splitWS (strStrip (strLower "power weapons"))).dedup)
      "power to weapons" = ((2 : Nat) : ℚ) / ((3 : Nat) : ℚ) := by
    unfold fuzzyScore
    rw [show ((splitWS (strStrip (strLower "power weapons"))).dedup.filter
        (fun w => w ∈ aliasWords "power to weapons")).length = 2 by decide]
    rw [show (max (aliasWords "power to weapons").length 1 : Nat) = 3 by decide]
  refine ⟨?_, ?_, hsc, ?_, rfl⟩
  · intro m q p hfind
    simp only [findByAlias]
    rw [hfind]
  · intro m q p hfind1 hfind2
    simp only [findByAlias]
    rw [hfind1, hfind2]
  · have h1 : mgrW.aliasIdx.find?
        (fun p => p.1 = strStrip (strLower "power weapons")) = Option.none := rfl
    have h2 : mgrW.aliasIdx.find?
        (fun p => strIn p.1 (strStrip (strLower "power weapons")) ||
          strIn (strStrip (strLower "power weapons")) p.1) = Option.none := rfl
    simp only [findByAlias]
    rw [h1, h2]
    rw [show mgrW.keybinds = [("weapons", kbWeapons)] from rfl]
    rw [List.foldl_cons, List.foldl_nil]
    rw [show kbWeapons.aliases = ["power to weapons"] from rfl]
    rw [List.foldl_cons, List.foldl_nil]
    unfold fuzzyStep
    rw [if_pos]
    constructor
    · rw [hsc]
      show (0 : ℚ) < _
      norm_num
    · rw [hsc, Rat.mkRat_eq_div]
      norm_num

/-- Witness for the amended C6: an exact alias hit resolves first. -/
theorem trigger_resolution_order_witness :
    mgrW.aliasIdx.find? (fun r => r.1 = strStrip (strLower "power to weapons")) =
      some ("power to weapons", kbWeapons) ∧
    findByAlias mgrW "power to weapons" = some kbWeapons :=
  ⟨rfl, trigger_resolution_order.1 mgrW "power to weapons"
    ("power to weapons", kbWeapons) rfl⟩

/-- Unfolding of MacroStorage.create for a nonempty action_steps list. -/
theorem storageCreate_v2_eq (s : MacroStore) (name trigger : String)
    (atype : Option String) (keys : Option (List String)) (dur : ℚ)
    (st : Py) (sts : List Py) (resp : Option String) :
    storageCreate s name trigger atype keys dur (some (st :: sts)) resp =
      (if name ∈ s.rows.map (fun r => r.name) then (s, .error .duplicate)
       else ({ rows := s.rows ++ [mkRow s.nextId name trigger atype Option.none dur
           (some (st :: sts)) 2 resp], nextId := s.nextId + 1 }, .ok s.nextId)) := rfl

/-- Unfolding of MacroStorage.create for an absent action_steps list. -/
theorem storageCreate_none_eq (s : MacroStore) (name trigger : String)
    (atype : Option String) (keys : Option (List String)) (dur : ℚ)
    (resp : Option String) :
    storageCreate s name trigger atype keys dur Option.none resp =
      (if name ∈ s.rows.map (fun r => r.name) then (s, .error .duplicate)
       else ({ rows := s.rows ++ [mkRow s.nextId name trigger atype (keysJsonOf keys)
           dur Option.none 1 resp], nextId := s.nextId + 1 }, .ok s.nextId)) := rfl

/-- C7: MacroManager.create fails with the recoverable capacity error
    whenever the stored count has reached max_macros, and with the
    recoverable duplicate-name error when the (normalized) name is already
    stored; in both cases the returned store is exactly the old store —
    nothing was inserted. -/
theorem macroCreate_capacity_duplicate (s : MacroStore) (maxM : Nat)
    (name trig : String) (keys : Option (List String)) (atype : String)
    (dur : ℚ) (steps : Option (List AStep)) (resp : Option String) :
    (s.rows.length ≥ maxM →
       managerCreate maxM s name trig keys atype dur steps resp =
         (s, .error .capacity)) ∧
    (s.rows.length < maxM →
       strStrip (strLower name) ∈ s.rows.map (fun r => r.name) →
       managerCreate maxM s name trig keys atype dur steps resp =
         (s, .error .duplicate)) := by
  constructor
  · intro hge
    unfold managerCreate
    rw [if_pos hge]
  · intro hlt hmem
    cases steps with
    | none =>
      simp only [managerCreate, storageCreate_none_eq]
      rw [if_neg (not_le.mpr hlt), if_pos hmem]
    | some l =>
      cases l with
      | nil =>
        simp only [managerCreate, storageCreate_none_eq]
        rw [if_neg (not_le.mpr hlt), if_pos hmem]
      | cons st sts =>
        simp only [managerCreate, List.map_cons, storageCreate_v2_eq]
        rw [if_neg (not_le.mpr hlt), if_pos hmem]

/-- Witness for C7: with max_macros = 2 and two stored macros a third
    create fails with the capacity error, and with room to spare a
    duplicate name fails with the duplicate error; the store is unchanged
    in both cases. -/
theorem macroCreate_capacity_duplicate_witness :
    (store2.rows.length ≥ 2 ∧
     managerCreate 2 store2 "gamma" "gamma" Option.none "press_key" 0
       Option.none Option.none = (store2, .error .capacity)) ∧
    (store2.rows.length < 5 ∧
     strStrip (strLower "Alpha") ∈ store2.rows.map (fun r => r.name) ∧
     managerCreate 5 store2 "Alpha" "alpha" Option.none "press_key" 0
       Option.none Option.none = (store2, .error .duplicate)) :=
  ⟨⟨by decide,
    (macroCreate_capacity_duplicate store2 2 "gamma" "gamma" Option.none
      "press_key" 0 Option.none Option.none).1 (by decide)⟩,
   ⟨by decide, by decide,
    (macroCreate_capacity_duplicate store2 5 "Alpha" "alpha" Option.none
      "press_key" 0 Option.none Option.none).2 (by decide) (by decide)⟩⟩

/-- C8: a macro read back through _row_to_dict never has both payloads
    populated; a macro created with (nonempty) action_steps reads back
    with schema_version 2 and action_type, keys, duration all None; a
    macro created without action_steps reads back with schema_version 1,
    action_steps None and its legacy fields. -/
theorem macro_payload_exclusivity :
    (∀ r : MacroRow, (rowToDict r).actionSteps ≠ Option.none →
       (rowToDict r).actionType = Option.none ∧ (rowToDict r).keys = Option.none ∧
       (rowToDict r).duration = Option.none) ∧
    (∀ (s : MacroStore) (name trig : String) (atype : Option String)
       (keys : Option (List String)) (dur : ℚ) (st : Py) (sts : List Py)
       (resp : Option String) (s2 : MacroStore) (rid : Nat),
       (∀ r ∈ s.rows, r.rid < s.nextId) →
       storageCreate s name trig atype keys dur (some (st :: sts)) resp =
         (s2, .ok rid) →
       ∃ m, getById s2 rid = some m ∧ m.schemaVersion = 2 ∧
         m.actionType = Option.none ∧ m.keys = Option.none ∧
         m.duration = Option.none ∧ m.actionSteps = some (st :: sts)) ∧
    (∀ (s : MacroStore) (name trig : String) (atype : Option String)
       (keys : Option (List String)) (dur : ℚ) (resp : Option String)
       (s2 : MacroStore) (rid : Nat),
       (∀ r ∈ s.rows, r.rid < s.nextId) →
       storageCreate s name trig atype keys dur Option.none resp = (s2, .ok rid) →
       ∃ m, getById s2 rid = some m ∧ m.schemaVersion = 1 ∧
         m.actionSteps = Option.none ∧ m.actionType = atype ∧
         m.keys = some (keys.getD []) ∧ m.duration = some dur) := by
  refine ⟨?_, ?_, ?_⟩
  · intro r hr
    cases h : r.actionSteps with
    | none =>
      rw [rowToDict] at hr
      rw [h] at hr
      exact absurd rfl hr
    | some steps =>
      rw [rowToDict, h]
      exact ⟨rfl, rfl, rfl⟩
  · intro s name trig atype keys dur st sts resp s2 rid hids hc
    rw [storageCreate_v2_eq] at hc
    by_cases hdup : name ∈ s.rows.map (fun r => r.name)
    · rw [if_pos hdup] at hc
      injection hc with h1 h2
      exact absurd h2 (by simp)
    · rw [if_neg hdup] at hc
      simp only [Prod.mk.injEq, Except.ok.injEq] at hc
      obtain ⟨hs2, hrid⟩ := hc
      have hfind : getById s2 rid = some (rowToDict
          (mkRow s.nextId name trig atype Option.none dur
            (some (st :: sts)) 2 resp)) := by
        rw [← hs2, ← hrid]
        unfold getById
        rw [List.find?_append]
        rw [List.find?_eq_none.mpr (fun r hr => by
          simp only [decide_eq_true_eq]
          exact Nat.ne_of_lt (hids r hr))]
        simp [List.find?, mkRow]
      exact ⟨_, hfind, rfl, rfl, rfl, rfl, rfl⟩
  · intro s name trig atype keys dur resp s2 rid hids hc
    rw [storageCreate_none_eq] at hc
    by_cases hdup : name ∈ s.rows.map (fun r => r.name)
    · rw [if_pos hdup] at hc
      injection hc with h1 h2
      exact absurd h2 (by simp)
    · rw [if_neg hdup] at hc
      simp only [Prod.mk.injEq, Except.ok.injEq] at hc
      obtain ⟨hs2, hrid⟩ := hc
      have hfind : getById s2 rid = some (rowToDict
          (mkRow s.nextId name trig atype (keysJsonOf keys) dur
            Option.none 1 resp)) := by
        rw [← hs2, ← hrid]
        unfold getById
        rw [List.find?_append]
        rw [List.find?_eq_none.mpr (fun r hr => by
          simp only [decide_eq_true_eq]
          exact Nat.ne_of_lt (hids r hr))]
        simp [List.find?, mkRow]
      refine ⟨_, hfind, rfl, rfl, rfl, ?_, rfl⟩
      show some ((keysJsonOf keys).getD []) = some (keys.getD [])
      cases keys with
      | none => rfl
      | some l => cases l with
        | nil => rfl
        | cons k ks => rfl

/-- Witness for C8: a v2 create reads back with masked legacy fields and
    schema 2; a legacy create reads back with null action_steps and
    schema 1. -/
theorem macro_payload_exclusivity_witness :
    ((∀ r ∈ (⟨[], 1⟩ : MacroStore).rows, r.rid < (⟨[], 1⟩ : MacroStore).nextId) ∧
     storageCreate ⟨[], 1⟩ "combat" "combat mode" Option.none Option.none 0
       (some [pyStepA]) (some "ok") = (storeV2W, .ok 1) ∧
     (∃ m, getById storeV2W 1 = some m ∧ m.schemaVersion = 2 ∧
       m.actionType = Option.none ∧ m.keys = Option.none ∧
       m.duration = Option.none ∧ m.actionSteps = some [pyStepA])) ∧
    (storageCreate ⟨[], 1⟩ "gear" "landing gear" (some "press_key") (some ["n"]) 0
       Option.none (some "ok") = (storeLegW, .ok 1) ∧
     (∃ m, getById storeLegW 1 = some m ∧ m.schemaVersion = 1 ∧
       m.actionSteps = Option.none ∧ m.actionType = some "press_key" ∧
       m.keys = some ((some ["n"] : Option (List String)).getD []) ∧
       m.duration = some 0)) :=
  ⟨⟨by simp, rfl,
    macro_payload_exclusivity.2.1 ⟨[], 1⟩ "combat" "combat mode" Option.none
      Option.none 0 pyStepA [] (some "ok") storeV2W 1 (by simp) rfl⟩,
   ⟨rfl,
    macro_payload_exclusivity.2.2 ⟨[], 1⟩ "gear" "landing gear" (some "press_key")
      (some ["n"]) 0 (some "ok") storeLegW 1 (by simp) rfl⟩⟩

/-- _row_to_dict keeps the row name. -/
theorem rowToDict_name (r : MacroRow) : (rowToDict r).name = r.name := by
  unfold rowToDict
  cases r.actionSteps <;> rfl

/-- A document read from a well-formed row has one of the two export
    shapes. -/
theorem docOK_of_wf (r : MacroRow) (h : RowWF r) : DocOK (rowToDict r) := by
  rcases h.1 with hn | ⟨p, ps, hs⟩
  · left
    rw [rowToDict, hn]
    exact ⟨rfl, ⟨_, rfl⟩, ⟨_, rfl⟩⟩
  · right
    rw [rowToDict, hs]
    exact ⟨p, ps, rfl, rfl, rfl, rfl⟩

/-- The import loop over fresh, well-shaped documents creates one row per
    document, and the created rows carry exactly the document data. -/
theorem importDocs_rows (docs : List MacroDict) :
    ∀ s : MacroStore,
    (∀ d ∈ docs, DocOK d) →
    (∀ d ∈ docs, ¬ d.name ∈ s.rows.map (fun r => r.name)) →
    (docs.map (fun d => d.name)).Nodup →
    (importDocs s docs false).1.rows.map (fun r => macroEquivData (rowToDict r)) =
      s.rows.map (fun r => macroEquivData (rowToDict r)) ++ docs.map macroEquivData := by
  induction docs with
  | nil => intro s _ _ _; simp [importDocs]
  | cons d rest ih =>
    intro s hok hfresh hnodup
    have hfd : ¬ d.name ∈ s.rows.map (fun r => r.name) :=
      hfresh d (List.mem_cons_self d rest)
    simp only [List.map_cons, List.nodup_cons] at hnodup
    rcases hok d (List.mem_cons_self d rest) with
      ⟨hsn, ⟨l, hkeys⟩, ⟨q, hdur⟩⟩ | ⟨p, ps, hsteps, hat, hkeys, hdur⟩
    · -- legacy document
      have hrowEq : macroEquivData (rowToDict (mkRow s.nextId d.name d.triggerPhrase
          d.actionType (keysJsonOf (some (d.keys.getD []))) (d.duration.getD 0)
          Option.none 1 d.response)) = macroEquivData d := by
        unfold macroEquivData
        rw [hsn, hkeys, hdur]
        cases l with
        | nil => rfl
        | cons k ks => rfl
      simp only [importDocs, hsn, stepsTruthyB, Bool.false_eq_true, if_false,
        storageCreate_none_eq, if_neg hfd]
      have hrest := ih { rows := s.rows ++ [mkRow s.nextId d.name d.triggerPhrase
          d.actionType (keysJsonOf (some (d.keys.getD []))) (d.duration.getD 0)
          Option.none 1 d.response], nextId := s.nextId + 1 }
        (fun d2 h2 => hok d2 (List.mem_cons_of_mem d h2))
        (fun d2 h2 => by
          simp only [List.map_append, List.mem_append, List.map_cons, List.map_nil,
            List.mem_singleton, mkRow]
          rintro (hin | hin)
          · exact hfresh d2 (List.mem_cons_of_mem d h2) (by simpa using hin)
          · exact hnodup.1 (hin ▸ List.mem_map_of_mem (fun d => d.name) h2))
        hnodup.2
      rw [hrest]
      simp only [List.map_append, List.map_cons, List.map_nil, List.append_assoc,
        List.cons_append, List.nil_append]
      rw [hrowEq]
    · -- v2 document
      have hrowEq : macroEquivData (rowToDict (mkRow s.nextId d.name d.triggerPhrase
          Option.none Option.none 0 (some (p :: ps)) 2 d.response)) =
          macroEquivData d := by
        unfold macroEquivData
        rw [hsteps, hat, hkeys, hdur]
        rfl
      simp only [importDocs, hsteps, stepsTruthyB, Bool.false_eq_true, if_false,
        eq_self_iff_true, if_true, storageCreate_v2_eq, if_neg hfd]
      have hrest := ih { rows := s.rows ++ [mkRow s.nextId d.name d.triggerPhrase
          Option.none Option.none 0 (some (p :: ps)) 2 d.response], nextId := s.nextId + 1 }
        (fun d2 h2 => hok d2 (List.mem_cons_of_mem d h2))
        (fun d2 h2 => by
          simp only [List.map_append, List.mem_append, List.map_cons, List.map_nil,
            List.mem_singleton, mkRow]
          rintro (hin | hin)
          · exact hfresh d2 (List.mem_cons_of_mem d h2) (by simpa using hin)
          · exact hnodup.1 (hin ▸ List.mem_map_of_mem (fun d => d.name) h2))
        hnodup.2
      rw [hrest]
      simp only [List.map_append, List.map_cons, List.map_nil, List.append_assoc,
        List.cons_append, List.nil_append]
      rw [hrowEq]

/-- C9: exporting the full macro set of a well-formed store and
    re-importing the exported documents into an empty store without
    overwrite reproduces an equivalent macro set: the multiset of
    (name, trigger phrase, response, payload) data of the re-imported
    store is a permutation of that of the original store. -/
theorem export_import_roundtrip (s : MacroStore) (h : StoreWF s) :
    ((listAll (importDocs ⟨[], 1⟩ (exportDocs s) false).1).map macroEquivData).Perm
      ((listAll s).map macroEquivData) := by
  have hsortperm : (sortRows s.rows).Perm s.rows := List.perm_insertionSort _ _
  have hdocsOK : ∀ d ∈ exportDocs s, DocOK d := by
    intro d hd
    rw [exportDocs, listAll, List.mem_map] at hd
    obtain ⟨r, hr, rfl⟩ := hd
    exact docOK_of_wf r (h.1 r (hsortperm.mem_iff.mp hr))
  have hfresh : ∀ d ∈ exportDocs s,
      ¬ d.name ∈ (⟨[], 1⟩ : MacroStore).rows.map (fun r => r.name) := by
    intro d _
    simp
  have hnamesmap : (exportDocs s).map (fun d => d.name) =
      (sortRows s.rows).map (fun r => r.name) := by
    rw [exportDocs, listAll, List.map_map]
    exact List.map_congr_left (fun r _ => rowToDict_name r)
  have hnodup : ((exportDocs s).map (fun d => d.name)).Nodup := by
    rw [hnamesmap]
    exact ((hsortperm.map (fun r => r.name)).nodup_iff).mpr h.2
  have hmain := importDocs_rows (exportDocs s) ⟨[], 1⟩ hdocsOK hfresh hnodup
  have h1 : (listAll (importDocs ⟨[], 1⟩ (exportDocs s) false).1).map macroEquivData =
      (sortRows (importDocs ⟨[], 1⟩ (exportDocs s) false).1.rows).map
        (fun r => macroEquivData (rowToDict r)) := by
    rw [listAll, List.map_map]
    rfl
  have h2 : ((sortRows (importDocs ⟨[], 1⟩ (exportDocs s) false).1.rows).map
        (fun r => macroEquivData (rowToDict r))).Perm
      ((importDocs ⟨[], 1⟩ (exportDocs s) false).1.rows.map
        (fun r => macroEquivData (rowToDict r))) :=
    (List.perm_insertionSort _ _).map _
  have h3 : (importDocs ⟨[], 1⟩ (exportDocs s) false).1.rows.map
        (fun r => macroEquivData (rowToDict r)) =
      (listAll s).map macroEquivData := by
    rw [hmain]
    simp [exportDocs]
  rw [h1]
  exact h3 ▸ h2

/-- Witness for C9 at the one-macro store. -/
theorem export_import_roundtrip_witness :
    StoreWF store1 ∧
    ((listAll (importDocs ⟨[], 1⟩ (exportDocs store1) false).1).map macroEquivData).Perm
      ((listAll store1).map macroEquivData) :=
  ⟨⟨fun r hr => by
      rw [show store1.rows = [rowA] from rfl, List.mem_singleton] at hr
      subst hr
      exact ⟨Or.inl rfl, Or.inr ⟨"a", [], rfl⟩⟩, by decide⟩,
   export_import_roundtrip store1
     ⟨fun r hr => by
        rw [show store1.rows = [rowA] from rfl, List.mem_singleton] at hr
        subst hr
        exact ⟨Or.inl rfl, Or.inr ⟨"a", [], rfl⟩⟩, by decide⟩⟩

end Roland
